import Mathlib

/-!
Server.cpp: login state machine, coordinate transforms and chunk decoding.

A shallow embedding of `src/Server.cpp`.

* The object lives on its socket thread; cross-thread calls are queued onto that thread
  (`QMetaObject::invokeMethod`).  The embedding describes what each member function does
  once it runs on the socket thread; the state is the `Server` record after the queued
  set-up call has allocated `m_socket`.
* `Q_ASSERT` / `Q_ASSERT_X` are fatal: a failed assertion stops the program.  A function
  that can fail an assertion returns an `Outcome` that keeps the state at the moment of the
  failure.
* Signals, calls on the socket, calls of `sendMessage` and `qDebug` lines are recorded in
  lists on the state, oldest first.
* A `double` is only copied and negated, which is exact; it is represented by the rational
  number it denotes (a finite value).
* A `float` is a `Binary32`: a finite value, by the rational number it denotes, an infinity
  or a NaN.  Every `float` operation that rounds is written with an explicit rounding to
  binary32 (`F32.round`, round to nearest, ties to even); a rounded result of magnitude
  `2 ^ 128` or more is an infinity.  The namespace `F32` and the functions on `ℚ` give the
  arithmetic of finite values; the functions in the namespace `Binary32` extend it to the
  infinities and NaN.
* An `int` is represented by the integer it denotes; its negation is `intNeg`, which wraps
  around at `-2 ^ 31`.
-/

namespace Mineflayer

/-! ## binary32 arithmetic -/

namespace F32

/-- Helper for `natLog2`: halve `n` until it is below 2, at most `fuel` times. -/
def log2Aux : Nat → Nat → Nat
  | 0, _ => 0
  | fuel + 1, n => if n < 2 then 0 else log2Aux fuel (n / 2) + 1

/-- Floor of the base-2 logarithm of a natural number (0 for 0). -/
def natLog2 (n : Nat) : Nat := log2Aux n n

/-- Floor of the base-2 logarithm of `|q|`, for `q ≠ 0`: the binade of `q`. -/
def ilog2 (q : ℚ) : Int :=
  let k : Int := (natLog2 q.num.natAbs : Int) - (natLog2 q.den : Int)
  if (2 : ℚ) ^ k ≤ |q| then k else k - 1

/-- Nearest integer, ties to the even one. -/
def roundEven (n : ℚ) : Int :=
  let f := ⌊n⌋
  let r := n - f
  if r < 1 / 2 then f
  else if 1 / 2 < r then f + 1
  else if f % 2 = 0 then f else f + 1

/-- Rounding of an exact result to binary32: 24 significant bits, exponents from -126
(below that the spacing stays `2 ^ (-149)`, the subnormal range), round to nearest, ties to
even.  The exponent has no upper limit here: a result of magnitude `2 ^ 128` or more stands
for an overflow, which `Binary32.ofRat` turns into an infinity. -/
def round (q : ℚ) : ℚ :=
  if q = 0 then 0
  else
    let e := max (ilog2 q) (-126)
    let ulp : ℚ := 2 ^ (e - 23)
    (roundEven (q / ulp) : ℚ) * ulp

/-- The `float` sum. -/
def add (a b : ℚ) : ℚ := round (a + b)

/-- The `float` difference. -/
def sub (a b : ℚ) : ℚ := round (a - b)

/-- The `float` product. -/
def mul (a b : ℚ) : ℚ := round (a * b)

/-- Integer part of a rational, rounding toward zero. -/
def truncate (q : ℚ) : Int := if 0 ≤ q then ⌊q⌋ else ⌈q⌉

/-- The C library function `std::fmod`: `x - n * y` where `n` is `x / y` with its fractional
part dropped, for finite `x` and `y ≠ 0`.  The result is exact (no rounding).  The other
cases are in `Binary32.fmod`. -/
def fmod (x y : ℚ) : ℚ := x - (truncate (x / y) : ℚ) * y

end F32

/-- A `float`: a finite value, by the rational number it denotes (the sign of a zero is not
kept), an infinity with its sign, or a NaN.  The finite binary32 values are the rationals
below `2 ^ 128` in magnitude that `F32.round` leaves unchanged. -/
inductive Binary32
  | finite (value : ℚ)
  | infinite (negative : Bool)
  | nan
  deriving DecidableEq

namespace Binary32

/-- The binary32 value of an exact result: rounded, and an infinity of the same sign when
the rounded magnitude is `2 ^ 128` or more. -/
def ofRat (q : ℚ) : Binary32 :=
  if (2 : ℚ) ^ 128 ≤ |F32.round q| then infinite (decide (q < 0)) else finite (F32.round q)

/-- The `float` sum. -/
def add : Binary32 → Binary32 → Binary32
  | finite a, finite b => ofRat (a + b)
  | finite _, infinite t => infinite t
  | infinite s, finite _ => infinite s
  | infinite s, infinite t => if s = t then infinite s else nan
  | nan, _ => nan
  | _, nan => nan

/-- The `float` difference. -/
def sub : Binary32 → Binary32 → Binary32
  | finite a, finite b => ofRat (a - b)
  | finite _, infinite t => infinite (!t)
  | infinite s, finite _ => infinite s
  | infinite s, infinite t => if s = t then nan else infinite s
  | nan, _ => nan
  | _, nan => nan

/-- The `float` product. -/
def mul : Binary32 → Binary32 → Binary32
  | finite a, finite b => ofRat (a * b)
  | finite a, infinite t => if a = 0 then nan else infinite (xor (decide (a < 0)) t)
  | infinite s, finite b => if b = 0 then nan else infinite (xor s (decide (b < 0)))
  | infinite s, infinite t => infinite (xor s t)
  | nan, _ => nan
  | _, nan => nan

/-- The C library function `std::fmod` on `float`: NaN when `x` is an infinity, when `y` is
zero or when either is a NaN; `x` itself when `x` is finite and `y` an infinity. -/
def fmod : Binary32 → Binary32 → Binary32
  | finite x, finite y => if y = 0 then nan else finite (F32.fmod x y)
  | finite x, infinite _ => finite x
  | finite _, nan => nan
  | infinite _, _ => nan
  | nan, _ => nan

/-- The comparison `v < 0`: false for a NaN. -/
def ltZero : Binary32 → Bool
  | finite a => decide (a < 0)
  | infinite s => s
  | nan => false

end Binary32

/-! ## Data model -/

/-- The enum `Server::LoginStatus`. -/
inductive LoginStatus
  | Disconnected
  | Connecting
  | WaitingForHandshakeResponse
  | WaitingForLoginResponse
  | WaitingForPlayerPositionAndLook
  | Success
  | SocketError
  deriving DecidableEq, Repr

/-- The `QUrl m_connection_info`, as far as the server reads it. -/
structure ConnectionInfo where
  host : String
  port : Option Nat
  userName : String
  password : String
  deriving DecidableEq, Repr

/-- The struct `EntityPosition`: `x y z stance` are `double`, `yaw pitch roll` are `float`. -/
structure EntityPosition where
  x : ℚ
  y : ℚ
  z : ℚ
  stance : ℚ
  yaw : Binary32
  pitch : Binary32
  roll : Binary32
  on_ground : Bool
  deriving DecidableEq

/-- The struct `Chunk::Coord`: three `int`s. -/
structure Coord where
  x : Int
  y : Int
  z : Int
  deriving DecidableEq, Repr

/-- Modelled from the spec: the class `Chunk` (its header is not among the sources).  A chunk
has an origin, a size and block records indexed by relative coordinate, each holding a
block type.  The record keeps every assignment `getBlock(pos).data()->type = t`, newest
first. -/
structure Chunk where
  position : Coord
  size : Coord
  writes : List (Coord × Int)
  deriving DecidableEq

/-- Modelled from the spec: the constructor `Chunk(position, size)`: no block type has been
assigned yet. -/
def Chunk.new (position size : Coord) : Chunk :=
  { position := position, size := size, writes := [] }

/-- Modelled from the spec: the assignment `chunk->getBlock(pos).data()->type = block_type`. -/
def Chunk.setBlockType (c : Chunk) (pos : Coord) (block_type : Int) : Chunk :=
  { c with writes := (pos, block_type) :: c.writes }

/-- Modelled from the spec: the block type held at a relative coordinate: the last one
assigned there, `none` when none was. -/
def Chunk.blockType (c : Chunk) (pos : Coord) : Option Int :=
  (c.writes.find? (fun w => decide (w.1 = pos))).map (fun w => w.2)

/-- The outgoing messages the server builds (subclasses of `OutgoingRequest`). -/
inductive OutgoingRequest
  | HandshakeRequest (username : String)
  | LoginRequest (username password : String)
  | PlayerPositionAndLookRequest (x y z stance : ℚ) (yaw pitch : Binary32) (on_ground : Bool)
  | DummyDisconnectRequest
  deriving DecidableEq

/-- The incoming messages (subclasses of `IncomingResponse`), by `messageType`; the types the
switch in `processIncomingMessage` has no case for are `Other`.  In a `PlayerPositionAndLook`
the coordinates and the stance are `double`, yaw and pitch are `float`; in a `MapChunk` the
origin and the extents-minus-one are integers, and the origin is given to `fromNotchianXyz`
as three `int`s. -/
inductive IncomingResponse
  | Handshake (connectionHash : String)
  | PlayerPositionAndLook (x y z stance : ℚ) (yaw pitch : Binary32) (on_ground : Bool)
  | MapChunk (x y z size_x_minus_one size_y_minus_one size_z_minus_one : Int)
      (compressed_data : List Int)
  | DisconnectOrKick (reason : String)
  | Other (messageType : Nat)
  deriving DecidableEq

/-- A `QTimer`, as far as the server sets it up. -/
structure QTimer where
  interval : Nat
  active : Bool
  deriving DecidableEq, Repr

/-- The signals of `Server`. -/
inductive Signal
  | loginStatusUpdated (state : LoginStatus)
  | mapChunkUpdated (chunk : Chunk)
  | socketDisconnected
  deriving DecidableEq

/-- The calls the server makes on its `QTcpSocket`. -/
inductive SocketCall
  | connectToHost (host : String) (port : Nat)
  | disconnectFromHost
  | write (msg : OutgoingRequest)
  deriving DecidableEq

/-- What the sources use without defining it. -/
structure Externals where
  /-- The constant `HandshakeResponse::AuthenticationNotRequired`. -/
  AuthenticationNotRequired : String
  /-- The Qt function `qUncompress` (a byte array is the list of its `char` values). -/
  qUncompress : List Int → List Int

/-- The state of a `Server` object together with what it has done so far. -/
structure Server where
  m_connection_info : ConnectionInfo
  /-- Whether the member `m_parser` points to a parser. -/
  m_parser_installed : Bool
  m_position_update_timer : Option QTimer
  m_login_state : LoginStatus
  player_position : EntityPosition
  /-- What `m_socket->isOpen()` returns. -/
  socket_isOpen : Bool
  /-- Signals emitted, oldest first. -/
  emitted : List Signal
  /-- Calls made on `m_socket`, oldest first. -/
  socket_calls : List SocketCall
  /-- Arguments of the calls of `sendMessage`, oldest first. -/
  submitted : List OutgoingRequest
  /-- Lines given to `qDebug()`, oldest first. -/
  debug_output : List String
  deriving DecidableEq

/-- A failed assertion. -/
inductive Fatal
  | loginStateAssert
  | connectionHashAssert (message : String)
  | byteArrayIndexAssert
  deriving DecidableEq, Repr

/-- Result of a member function that may fail an assertion: the state it returns with, or
the state at the failed assertion. -/
inductive Outcome
  | ok (s : Server)
  | aborted (s : Server) (failure : Fatal)
  deriving DecidableEq

/-- The state the constructor leaves: no parser, no timer, `Disconnected`, a socket that is
not open, nothing done yet.  `EntityPosition` has no initialiser in the sources, so the
first position is a parameter. -/
def Server.new (connection_info : ConnectionInfo) (position : EntityPosition) : Server :=
  { m_connection_info := connection_info
    m_parser_installed := false
    m_position_update_timer := none
    m_login_state := LoginStatus.Disconnected
    player_position := position
    socket_isOpen := false
    emitted := []
    socket_calls := []
    submitted := []
    debug_output := [] }

/-! ## Coordinate transforms -/

/-- Method `Server::fromNotchianXyz(EntityPosition &, double, double, double)`. -/
def fromNotchianXyz (destination : EntityPosition) (notchian_x notchian_y notchian_z : ℚ) :
    EntityPosition :=
  { destination with x := notchian_z, y := -notchian_x, z := notchian_y }

/-- The negation `-n` of an `int` (32 bits, two's complement).  It is the negative of `n` for
every `int` but the least one, `-2 ^ 31`, whose negative is not an `int`: there the result
wraps around to `-2 ^ 31` itself. -/
def intNeg (n : Int) : Int := if n = -2147483648 then -2147483648 else -n

/-- Method `Server::fromNotchianXyz(Chunk::Coord &, int, int, int)`.  The arguments are `int`
values; the negation is the one of `int`. -/
def fromNotchianXyzCoord (notchian_x notchian_y notchian_z : Int) : Coord :=
  { x := notchian_z, y := intNeg notchian_x, z := notchian_y }

/-- Method `Server::toNotchianXyz`: the three results are `(notchian_x, notchian_y, notchian_z)`. -/
def toNotchianXyz (source : EntityPosition) : ℚ × ℚ × ℚ :=
  (-source.y, source.z, source.x)

/-- Constant `Server::c_pi = 3.14159265f`, by the rational number it denotes. -/
def c_pi : ℚ := F32.round 3.14159265

/-- Constant `Server::c_2pi = 6.28318531f`, by the rational number it denotes. -/
def c_2pi : ℚ := F32.round 6.28318531

/-- Constant `Server::c_degrees_per_radian = 57.2957795f`, by the rational number it
denotes. -/
def c_degrees_per_radian : ℚ := F32.round 57.2957795

/-- Constant `Server::c_radians_per_degree = 0.0174532925f`, by the rational number it
denotes. -/
def c_radians_per_degree : ℚ := F32.round 0.0174532925

/-- Method `Server::degreesToRadians` in the arithmetic of finite values: the value returned
for a finite argument when the product does not overflow. -/
def degreesToRadians (degrees : ℚ) : ℚ := F32.mul degrees c_radians_per_degree

/-- Method `Server::radiansToDegrees` in the arithmetic of finite values: the value returned
for a finite argument when the product does not overflow. -/
def radiansToDegrees (radians : ℚ) : ℚ := F32.mul radians c_degrees_per_radian

/-- Method `Server::euclideanMod` in the arithmetic of finite values: the value returned for
a finite numerator and a finite denominator other than zero when the sum does not
overflow. -/
def euclideanMod (numerator denominator : ℚ) : ℚ :=
  let result := F32.fmod numerator denominator
  if result < 0 then F32.add result denominator else result

/-- Method `Server::degreesToRadians`, on every `float`. -/
def Binary32.degreesToRadians (degrees : Binary32) : Binary32 :=
  Binary32.mul degrees (Binary32.finite c_radians_per_degree)

/-- Method `Server::radiansToDegrees`, on every `float`. -/
def Binary32.radiansToDegrees (radians : Binary32) : Binary32 :=
  Binary32.mul radians (Binary32.finite c_degrees_per_radian)

/-- Method `Server::euclideanMod`, on every `float`. -/
def Binary32.euclideanMod (numerator denominator : Binary32) : Binary32 :=
  let result := Binary32.fmod numerator denominator
  if Binary32.ltZero result then Binary32.add result denominator else result

/-- Method `Server::fromNotchianYawPitch`. -/
def fromNotchianYawPitch (destination : EntityPosition)
    (notchian_yaw notchian_pitch : Binary32) : EntityPosition :=
  { destination with
    yaw := Binary32.euclideanMod (Binary32.degreesToRadians notchian_yaw)
      (Binary32.finite c_2pi)
    pitch := Binary32.sub
      (Binary32.euclideanMod
        (Binary32.add (Binary32.degreesToRadians notchian_pitch) (Binary32.finite c_pi))
        (Binary32.finite c_2pi))
      (Binary32.finite c_2pi) }

/-- Method `Server::toNotchianYawPitch`: the two results are `(notchian_yaw, notchian_pitch)`. -/
def toNotchianYawPitch (source : EntityPosition) : Binary32 × Binary32 :=
  (Binary32.radiansToDegrees source.yaw, Binary32.radiansToDegrees source.pitch)

/-! ## The server -/

/-- Method `Server::changeLoginState`. -/
def changeLoginState (state : LoginStatus) (s : Server) : Server :=
  { s with m_login_state := state, emitted := s.emitted ++ [Signal.loginStatusUpdated state] }

/-- Method `Server::socketConnect`, run on the socket thread (`Q_ASSERT(m_socket)` holds once the
socket is allocated). -/
def socketConnect (s : Server) : Server :=
  let s1 := changeLoginState LoginStatus.Connecting s
  { s1 with
    socket_calls := s1.socket_calls ++
      [SocketCall.connectToHost s1.m_connection_info.host (s1.m_connection_info.port.getD 25565)] }

/-- Method `Server::socketDisconnect`, run on the socket thread. -/
def socketDisconnect (s : Server) : Server :=
  if s.socket_isOpen then
    { s with socket_calls := s.socket_calls ++ [SocketCall.disconnectFromHost] }
  else s

/-- Method `Server::sendMessage`.  The call itself is recorded in `submitted`. -/
def sendMessage (msg : OutgoingRequest) (s : Server) : Server :=
  let s0 := { s with submitted := s.submitted ++ [msg] }
  if msg = OutgoingRequest.DummyDisconnectRequest then
    socketDisconnect s0
  else if s0.socket_isOpen then
    { s0 with socket_calls := s0.socket_calls ++ [SocketCall.write msg] }
  else s0

/-- Method `Server::handleConnected`. -/
def handleConnected (s : Server) : Server :=
  let s1 := { s with m_parser_installed := true }
  let s2 := changeLoginState LoginStatus.WaitingForHandshakeResponse s1
  sendMessage (OutgoingRequest.HandshakeRequest s2.m_connection_info.userName) s2

/-- Method `Server::terminate`. -/
def terminate (s : Server) : Server :=
  let s1 := changeLoginState LoginStatus.Disconnected s
  { s1 with emitted := s1.emitted ++ [Signal.socketDisconnected] }

/-- Method `Server::cleanUpAfterDisconnect`: the queued call of `terminate` is run at once. -/
def cleanUpAfterDisconnect (s : Server) : Server :=
  terminate { s with debug_output := s.debug_output ++ ["Cleaning up, disconnected"] }

/-- Method `Server::gotFirstPlayerPositionAndLookResponse`. -/
def gotFirstPlayerPositionAndLookResponse (s : Server) : Server :=
  let s1 := { s with m_position_update_timer := some { interval := 200, active := true } }
  changeLoginState LoginStatus.Success s1

/-- Method `Server::finishWritingAndDisconnect`. -/
def finishWritingAndDisconnect (s : Server) : Server :=
  sendMessage OutgoingRequest.DummyDisconnectRequest s

/-- Method `Server::handleSocketError`. -/
def handleSocketError (error : String) (s : Server) : Server :=
  changeLoginState LoginStatus.SocketError
    { s with debug_output := s.debug_output ++ ["Socket error: " ++ error] }

/-- Method `Server::loginStatus`. -/
def loginStatus (s : Server) : LoginStatus := s.m_login_state

/-- Method `Server::sendPosition`. -/
def sendPosition (s : Server) : Server :=
  let xyz := toNotchianXyz s.player_position
  let yp := toNotchianYawPitch s.player_position
  sendMessage
    (OutgoingRequest.PlayerPositionAndLookRequest xyz.1 xyz.2.1 xyz.2.2 s.player_position.stance
      yp.1 yp.2 s.player_position.on_ground) s

/-! ### Chunk decoding -/

/-- The loop `for (i = 0; i < bound; i++) body`, over a state that `body` may fail on. -/
def forLoop {σ : Type} (bound : Int) (body : Int → σ → Option σ) (s : σ) : Option σ :=
  (List.range bound.toNat).foldlM (fun (st : σ) (i : Nat) => body (Int.ofNat i) st) s

/-- Local variables of the `MapChunk` case while its loops run; `reads` lists the indices given
to `decompressed.at`, oldest first. -/
structure DecodeState where
  array_index : Nat
  chunk : Chunk
  reads : List Nat
  deriving DecidableEq

/-- The body of the innermost loop of the `MapChunk` case.  `QByteArray::at` asserts that the
index is inside the array: `none` is that failure. -/
def decodeBlock (decompressed : List Int) (notchian_relative_pos : Coord) (st : DecodeState) :
    Option DecodeState :=
  match decompressed[st.array_index]? with
  | none => none
  | some block_type =>
    let relative_pos := fromNotchianXyzCoord notchian_relative_pos.x notchian_relative_pos.y
      notchian_relative_pos.z
    some { array_index := st.array_index + 1
           chunk := st.chunk.setBlockType relative_pos block_type
           reads := st.reads ++ [st.array_index] }

/-- The three nested loops of the `MapChunk` case: `x` outermost, then `z`, then `y`. -/
def decodeBlocks (decompressed : List Int) (notchian_size : Coord) (chunk : Chunk) :
    Option DecodeState :=
  forLoop notchian_size.x (fun x st =>
    forLoop notchian_size.z (fun z st =>
      forLoop notchian_size.y (fun y st =>
        decodeBlock decompressed { x := x, y := y, z := z } st) st) st)
    { array_index := 0, chunk := chunk, reads := [] }

/-- The `MapChunk` case up to the filled chunk: sizes, the new chunk and the loops. -/
def decodeMapChunk (decompressed : List Int)
    (x y z size_x_minus_one size_y_minus_one size_z_minus_one : Int) : Option DecodeState :=
  let position := fromNotchianXyzCoord x y z
  let notchian_size : Coord :=
    { x := size_x_minus_one + 1, y := size_y_minus_one + 1, z := size_z_minus_one + 1 }
  let size := fromNotchianXyzCoord notchian_size.x notchian_size.y notchian_size.z
  decodeBlocks decompressed notchian_size (Chunk.new position size)

/-- Method `Server::processIncomingMessage`. -/
def processIncomingMessage (env : Externals) (incomingMessage : IncomingResponse) (s : Server) :
    Outcome :=
  match incomingMessage with
  | IncomingResponse.Handshake connectionHash =>
    if s.m_login_state ≠ LoginStatus.WaitingForHandshakeResponse then
      Outcome.aborted s Fatal.loginStateAssert
    else if connectionHash ≠ env.AuthenticationNotRequired then
      Outcome.aborted s (Fatal.connectionHashAssert ("unexpected connection hash: " ++ connectionHash))
    else
      let s1 := changeLoginState LoginStatus.WaitingForLoginResponse s
      let s2 := changeLoginState LoginStatus.WaitingForPlayerPositionAndLook s1
      Outcome.ok (sendMessage
        (OutgoingRequest.LoginRequest s2.m_connection_info.userName s2.m_connection_info.password) s2)
  | IncomingResponse.PlayerPositionAndLook x y z stance yaw pitch on_ground =>
    let p1 := fromNotchianXyz s.player_position x z y
    let p2 := { p1 with stance := stance }
    let p3 := fromNotchianYawPitch p2 yaw pitch
    let p4 := { p3 with roll := Binary32.finite 0 }
    let p5 := { p4 with on_ground := on_ground }
    let s1 := { s with player_position := p5 }
    if s1.m_login_state = LoginStatus.WaitingForPlayerPositionAndLook then
      Outcome.ok (gotFirstPlayerPositionAndLookResponse s1)
    else Outcome.ok s1
  | IncomingResponse.MapChunk x y z size_x_minus_one size_y_minus_one size_z_minus_one
      compressed_data =>
    let tmp := [0, 0, 0, 0] ++ compressed_data
    let decompressed := env.qUncompress tmp
    match decodeMapChunk decompressed x y z size_x_minus_one size_y_minus_one size_z_minus_one with
    | none => Outcome.aborted s Fatal.byteArrayIndexAssert
    | some st => Outcome.ok { s with emitted := s.emitted ++ [Signal.mapChunkUpdated st.chunk] }
  | IncomingResponse.DisconnectOrKick reason =>
    Outcome.ok (finishWritingAndDisconnect
      { s with debug_output := s.debug_output ++ ["got disconnected: " ++ reason] })
  | IncomingResponse.Other _ => Outcome.ok s

/-- An example connection: host, default port, user name and password. -/
def exampleInfo : ConnectionInfo :=
  { host := "localhost", port := none, userName := "steve", password := "secret" }

/-- An example position: the origin, looking along yaw 0. -/
def examplePosition : EntityPosition :=
  { x := 0, y := 0, z := 0, stance := 0, yaw := Binary32.finite 0, pitch := Binary32.finite 0,
    roll := Binary32.finite 0, on_ground := false }

/-- An example environment: the sentinel is a dash, and the example payloads are stored
uncompressed, so that decompression only drops the four-byte size prefix. -/
def exampleEnv : Externals :=
  { AuthenticationNotRequired := "-", qUncompress := fun bytes => bytes.drop 4 }

/-- A freshly constructed server for the examples. -/
def exampleServer : Server := Server.new exampleInfo examplePosition

/-- A server in the middle of a session: logged in, parser installed, socket open. -/
def exampleReadyServer : Server :=
  { exampleServer with
    m_parser_installed := true
    m_login_state := LoginStatus.Success
    socket_isOpen := true }

/-- The relative coordinate written with the byte at array index `i`, for wire sizes `sy`
and `sz`: the loops run `x` outermost, then `z`, then `y`, so the index is
`(x * sz + z) * sy + y`. -/
def cellOfIndex (sy sz i : Nat) : Coord :=
  fromNotchianXyzCoord ((i / sy / sz : Nat) : Int) ((i % sy : Nat) : Int)
    ((i / sy % sz : Nat) : Int)

/-- What the loops of the `MapChunk` case have done when `n` bytes are read. -/
def DecodedUpTo (decompressed : List Int) (sy sz : Nat) (chunk : Chunk) (n : Nat)
    (st : DecodeState) : Prop :=
  st.array_index = n ∧ st.reads = List.range n ∧
  st.chunk.position = chunk.position ∧ st.chunk.size = chunk.size ∧
  st.chunk.writes =
    ((List.range n).map (fun i => (cellOfIndex sy sz i, decompressed.getD i 0))).reverse
      ++ chunk.writes

/-- The payload of an example 2 x 2 x 2 chunk: eight block types in x, z, y order, then two
bytes of the arrays that follow them. -/
def exampleChunkData : List Int := [10, 11, 12, 13, 14, 15, 16, 17, 99, 99]

/-! ### Events -/

/-- What can happen to a server: the calls of its public slots, the signals of its socket
and of its timer, and the socket opening or closing. -/
inductive Event
  /-- A call of `socketConnect`. -/
  | connect
  /-- A call of `socketDisconnect`. -/
  | disconnect
  /-- A call of `sendMessage`. -/
  | submit (msg : OutgoingRequest)
  /-- The socket signal `connected()`: runs `handleConnected`. -/
  | connected
  /-- The socket signal `disconnected()`: runs `cleanUpAfterDisconnect`. -/
  | disconnected
  /-- The socket signal `error(...)`: runs `handleSocketError`. -/
  | socketError (error : String)
  /-- The signal `messageReceived` of the message reader: runs `processIncomingMessage`. -/
  | message (incomingMessage : IncomingResponse)
  /-- The timer signal `timeout()`, which only a started timer gives: runs `sendPosition`. -/
  | timeout
  /-- The socket becomes open or closed. -/
  | transport (isOpen : Bool)
  deriving DecidableEq

/-- The state an outcome carries. -/
def Outcome.state : Outcome → Server
  | Outcome.ok s => s
  | Outcome.aborted s _ => s

/-- The reaction of the server to one event. -/
def step (env : Externals) (e : Event) (s : Server) : Outcome :=
  match e with
  | Event.connect => Outcome.ok (socketConnect s)
  | Event.disconnect => Outcome.ok (socketDisconnect s)
  | Event.submit msg => Outcome.ok (sendMessage msg s)
  | Event.connected => Outcome.ok (handleConnected s)
  | Event.disconnected => Outcome.ok (cleanUpAfterDisconnect s)
  | Event.socketError error => Outcome.ok (handleSocketError error s)
  | Event.message incomingMessage => processIncomingMessage env incomingMessage s
  | Event.timeout =>
    match s.m_position_update_timer with
    | some timer => if timer.active then Outcome.ok (sendPosition s) else Outcome.ok s
    | none => Outcome.ok s
  | Event.transport isOpen => Outcome.ok { s with socket_isOpen := isOpen }

/-- The reaction to a sequence of events, oldest first; a failed assertion ends the run. -/
def runEvents (env : Externals) : List Event → Server → Outcome
  | [], s => Outcome.ok s
  | e :: rest, s =>
    match step env e s with
    | Outcome.ok s1 => runEvents env rest s1
    | Outcome.aborted s1 failure => Outcome.aborted s1 failure

/-- The login states notified by a list of signals, oldest first. -/
def loginStates : List Signal → List LoginStatus
  | [] => []
  | Signal.loginStatusUpdated state :: rest => state :: loginStates rest
  | _ :: rest => loginStates rest

/-- The changes of state along a sequence of states that starts in `start`: each pair is the
state before and the state after one assignment. -/
def transitionsFrom (start : LoginStatus) : List LoginStatus → List (LoginStatus × LoginStatus)
  | [] => []
  | next :: rest => (start, next) :: transitionsFrom next rest

/-- The order the three last login steps must come in: `Success` only from
`WaitingForPlayerPositionAndLook`, that only from `WaitingForLoginResponse`, and that only
from `WaitingForHandshakeResponse`. -/
def orderedTransition (t : LoginStatus × LoginStatus) : Prop :=
  (t.2 = LoginStatus.Success → t.1 = LoginStatus.WaitingForPlayerPositionAndLook) ∧
  (t.2 = LoginStatus.WaitingForPlayerPositionAndLook →
    t.1 = LoginStatus.WaitingForLoginResponse) ∧
  (t.2 = LoginStatus.WaitingForLoginResponse →
    t.1 = LoginStatus.WaitingForHandshakeResponse)

/-- The events of a run that were processed: those before the first failed assertion. -/
def processedEvents (env : Externals) : List Event → Server → List Event
  | [], _ => []
  | e :: rest, s =>
    match step env e s with
    | Outcome.ok s1 => e :: processedEvents env rest s1
    | Outcome.aborted _ _ => []

/-- The login state is the last one notified (`Disconnected` when none was), and every
change of login state notified so far is in order. -/
def LoginInvariant (s : Server) : Prop :=
  s.m_login_state = (loginStates s.emitted).getLastD LoginStatus.Disconnected ∧
  ∀ t ∈ transitionsFrom LoginStatus.Disconnected (loginStates s.emitted), orderedTransition t

/-- A run that logs in: connect, connected, Handshake response, first position. -/
def exampleLoginRun : List Event :=
  [Event.connect, Event.connected, Event.message (IncomingResponse.Handshake "-"),
   Event.message (IncomingResponse.PlayerPositionAndLook 1 2 3 5 (Binary32.finite 0)
     (Binary32.finite 0) true)]

/-- The state of the loops of the `MapChunk` case after `total` bytes are read, starting from
`chunk`. -/
def decodedState (decompressed : List Int) (sy sz total : Nat) (chunk : Chunk) : DecodeState :=
  { array_index := total
    chunk :=
      { chunk with
        writes :=
          ((List.range total).map
            (fun i => (cellOfIndex sy sz i, decompressed.getD i 0))).reverse ++ chunk.writes }
    reads := List.range total }

/-- The array index whose byte goes to relative coordinate `c`, for wire sizes `sy` and
`sz`. -/
def indexOfCell (sy sz : Nat) (c : Coord) : Nat :=
  ((-c.y).toNat * sz + c.x.toNat) * sy + c.z.toNat

/-- The chunk decoded from the example payload with extents-minus-one `(1, 1, 1)` at wire
origin `(16, 0, -32)`: the hand-made table, newest assignment first. -/
def exampleChunk : Chunk :=
  { position := { x := -32, y := -16, z := 0 }
    size := { x := 2, y := -2, z := 2 }
    writes :=
      [({ x := 1, y := -1, z := 1 }, 17), ({ x := 1, y := -1, z := 0 }, 16),
       ({ x := 0, y := -1, z := 1 }, 15), ({ x := 0, y := -1, z := 0 }, 14),
       ({ x := 1, y := 0, z := 1 }, 13), ({ x := 1, y := 0, z := 0 }, 12),
       ({ x := 0, y := 0, z := 1 }, 11), ({ x := 0, y := 0, z := 0 }, 10)] }

/-- Whether `q` is a whole multiple of `2 ^ j`. -/
def OnGrid (j : Int) (q : ℚ) : Prop := ∃ n : Int, q = (n : ℚ) * 2 ^ j

/-! ## Lemmas -/

namespace F32

/-- With enough fuel `log2Aux` brackets `n` between two consecutive powers of two. -/
theorem log2Aux_spec (fuel : Nat) : ∀ n : Nat, n ≤ fuel → n ≠ 0 →
    2 ^ log2Aux fuel n ≤ n ∧ n < 2 ^ (log2Aux fuel n + 1) := by
  induction fuel with
  | zero => intro n h hn; omega
  | succ fuel ih =>
    intro n h hn
    unfold log2Aux
    split_ifs with h2
    · constructor <;> simp <;> omega
    · have := ih (n / 2) (by omega) (by omega)
      obtain ⟨h3, h4⟩ := this
      rw [pow_succ] at h4 ⊢
      constructor
      · omega
      · rw [pow_succ]; omega

/-- The bracket `2 ^ natLog2 n ≤ n < 2 ^ (natLog2 n + 1)` for `n ≠ 0`. -/
theorem natLog2_spec (n : Nat) (hn : n ≠ 0) :
    2 ^ natLog2 n ≤ n ∧ n < 2 ^ (natLog2 n + 1) :=
  log2Aux_spec n n le_rfl hn

/-- The binade of `q` starts at or below `|q|`. -/
theorem zpow_ilog2_le (q : ℚ) (hq : q ≠ 0) : (2 : ℚ) ^ ilog2 q ≤ |q| := by
  unfold ilog2
  simp only
  split_ifs with h
  · exact h
  · have ha : q.num.natAbs ≠ 0 := by simpa using hq
    have hb : q.den ≠ 0 := q.den_nz
    obtain ⟨h1, -⟩ := natLog2_spec _ ha
    obtain ⟨-, h2⟩ := natLog2_spec _ hb
    have e : |q| = (q.num.natAbs : ℚ) / (q.den : ℚ) := by
      conv_lhs => rw [← Rat.num_div_den q]
      rw [abs_div, Nat.cast_natAbs, Nat.abs_cast]
      simp
    rw [e]
    have h1q : (2 : ℚ) ^ natLog2 q.num.natAbs ≤ (q.num.natAbs : ℚ) := by exact_mod_cast h1
    have h2q : (q.den : ℚ) ≤ (2 : ℚ) ^ (natLog2 q.den + 1) := by exact_mod_cast h2.le
    have hbpos : (0 : ℚ) < q.den := by exact_mod_cast q.den_pos
    have e2 : (2 : ℚ) ^ ((natLog2 q.num.natAbs : Int) - (natLog2 q.den : Int) - 1)
        = (2 : ℚ) ^ natLog2 q.num.natAbs / (2 : ℚ) ^ (natLog2 q.den + 1) := by
      rw [sub_sub, zpow_sub₀ (by norm_num), zpow_natCast]
      congr 1
      rw [← zpow_natCast]
      push_cast
      rfl
    rw [e2]
    exact div_le_div₀ (by positivity) h1q hbpos h2q

/-- Rounding to the nearest integer moves by at most one half. -/
theorem roundEven_sub_le (n : ℚ) : |(roundEven n : ℚ) - n| ≤ 1 / 2 := by
  have h1 := Int.floor_le n
  have h2 := Int.lt_floor_add_one n
  unfold roundEven
  simp only
  split_ifs with a b c
  · rw [abs_le]; constructor <;> linarith
  · push_cast; rw [abs_le]; constructor <;> linarith
  · rw [abs_le]; constructor <;> linarith
  · push_cast; rw [abs_le]; constructor <;> linarith

/-- The error of one binary32 rounding: relative `2 ^ (-24)`, or absolute `2 ^ (-150)` in the
subnormal range. -/
theorem round_sub_le (q : ℚ) : |round q - q| ≤ |q| / 2 ^ 24 + 1 / 2 ^ 150 := by
  unfold round
  split_ifs with h0
  · subst h0; norm_num
  · simp only
    set e := max (ilog2 q) (-126) with he
    have hu : (0 : ℚ) < 2 ^ (e - 23) := by positivity
    have h1 := roundEven_sub_le (q / 2 ^ (e - 23))
    have h2 : |(roundEven (q / 2 ^ (e - 23)) : ℚ) * 2 ^ (e - 23) - q|
        = |(roundEven (q / 2 ^ (e - 23)) : ℚ) - q / 2 ^ (e - 23)| * 2 ^ (e - 23) := by
      rw [← abs_of_pos hu, ← abs_mul, abs_of_pos hu]
      congr 1
      field_simp
    rw [h2]
    have h3 : |(roundEven (q / 2 ^ (e - 23)) : ℚ) - q / 2 ^ (e - 23)| * 2 ^ (e - 23)
        ≤ 1 / 2 * 2 ^ (e - 23) := mul_le_mul_of_nonneg_right h1 hu.le
    have h4 : (1 / 2 : ℚ) * 2 ^ (e - 23) = 2 ^ e / 2 ^ 24 := by
      rw [zpow_sub₀ (by norm_num)]
      norm_num
      ring
    rw [h4] at h3
    refine h3.trans ?_
    rcases le_total (ilog2 q) (-126) with hc | hc
    · have : e = -126 := by rw [he]; exact max_eq_right hc
      rw [this]
      have : (0 : ℚ) ≤ |q| / 2 ^ 24 := by positivity
      have e3 : (2 : ℚ) ^ (-126 : ℤ) / 2 ^ 24 = 1 / 2 ^ 150 := by
        rw [zpow_neg]; norm_num
      linarith
    · have : e = ilog2 q := by rw [he]; exact max_eq_left hc
      rw [this]
      have := zpow_ilog2_le q h0
      have : (2 : ℚ) ^ ilog2 q / 2 ^ 24 ≤ |q| / 2 ^ 24 :=
        div_le_div_of_nonneg_right this (by positivity)
      have : (0 : ℚ) ≤ 1 / 2 ^ 150 := by positivity
      linarith

/-- For a positive `d`, `fmod x d` is `x` minus a whole multiple of `d`, lies below `d`, and is
nonnegative or above `-d`. -/
theorem fmod_spec (x d : ℚ) (hd : 0 < d) :
    (0 ≤ fmod x d ∨ -d < fmod x d) ∧ fmod x d < d ∧
    ∃ t : ℤ, fmod x d = x - (t : ℚ) * d := by
  refine ⟨?_, ?_, ⟨truncate (x / d), rfl⟩⟩
  · unfold fmod truncate
    split_ifs with h
    · left
      have h1 := Int.floor_le (x / d)
      have : (⌊x / d⌋ : ℚ) * d ≤ x / d * d := mul_le_mul_of_nonneg_right h1 hd.le
      rw [div_mul_cancel₀ _ hd.ne.symm] at this
      linarith
    · right
      have h1 := Int.ceil_lt_add_one (x / d)
      have : (⌈x / d⌉ : ℚ) * d < (x / d + 1) * d := mul_lt_mul_of_pos_right h1 hd
      rw [add_mul, div_mul_cancel₀ _ hd.ne.symm] at this
      linarith
  · unfold fmod truncate
    split_ifs with h
    · have h1 := Int.lt_floor_add_one (x / d)
      have : x / d * d < ((⌊x / d⌋ : ℚ) + 1) * d := mul_lt_mul_of_pos_right h1 hd
      rw [div_mul_cancel₀ _ hd.ne.symm] at this
      linarith
    · have h1 := Int.le_ceil (x / d)
      have : x / d * d ≤ (⌈x / d⌉ : ℚ) * d := mul_le_mul_of_nonneg_right h1 hd.le
      rw [div_mul_cancel₀ _ hd.ne.symm] at this
      linarith

end F32

/-- For a positive `d`, `euclideanMod x d` is within one rounding error of the representative
of `x` modulo `d` in `[0, d)`. -/
theorem euclideanMod_spec (x d : ℚ) (hd : 0 < d) :
    ∃ k : ℤ, 0 ≤ x - (k : ℚ) * d ∧ x - (k : ℚ) * d < d ∧
      |euclideanMod x d - (x - (k : ℚ) * d)| ≤ d / 2 ^ 24 + 1 / 2 ^ 150 := by
  obtain ⟨h1, h2, t, ht⟩ := F32.fmod_spec x d hd
  have hpos : (0 : ℚ) ≤ d / 2 ^ 24 + 1 / 2 ^ 150 := by positivity
  unfold euclideanMod
  simp only
  split_ifs with hneg
  · have h3 : -d < F32.fmod x d := by
      rcases h1 with h1 | h1
      · linarith
      · exact h1
    refine ⟨t - 1, ?_, ?_, ?_⟩
    · push_cast; rw [ht] at h3; linarith
    · push_cast; rw [ht] at hneg; linarith
    · have e : x - ((t - 1 : ℤ) : ℚ) * d = F32.fmod x d + d := by
        push_cast; rw [ht]; ring
      rw [e]
      have h4 := F32.round_sub_le (F32.fmod x d + d)
      have h5 : |F32.fmod x d + d| ≤ d := by
        rw [abs_le]; constructor <;> linarith
      have h6 : |F32.fmod x d + d| / 2 ^ 24 ≤ d / 2 ^ 24 :=
        div_le_div_of_nonneg_right h5 (by positivity)
      unfold F32.add
      linarith
  · refine ⟨t, ?_, ?_, ?_⟩
    · rw [← ht]; linarith
    · rw [← ht]; exact h2
    · rw [← ht]; simpa using hpos

/-- The binary32 value of `6.28318531f`. -/
theorem c_2pi_eq : c_2pi = 13176795 / 2097152 := by decide!

/-- The binary32 value of `57.2957795f`. -/
theorem c_degrees_per_radian_eq : c_degrees_per_radian = 15019745 / 262144 := by decide!

/-- The binary32 value of `0.0174532925f`. -/
theorem c_radians_per_degree_eq : c_radians_per_degree = 9370165 / 536870912 := by decide!

/-- The binary32 value of `3.14159265f`. -/
theorem c_pi_eq : c_pi = 13176795 / 4194304 := by decide!

/-- Loop rule: an invariant that holds before the loop and is kept by every iteration below the
bound holds after the loop, and the loop does not fail. -/
theorem forLoop_invariant {σ : Type} (bound : Int) (body : Int → σ → Option σ)
    (P : Nat → σ → Prop) (s : σ) (h0 : P 0 s)
    (hstep : ∀ i : Nat, (i : Int) < bound → ∀ st, P i st →
      ∃ st1, body (i : Int) st = some st1 ∧ P (i + 1) st1) :
    ∃ st1, forLoop bound body s = some st1 ∧ P bound.toNat st1 := by
  unfold forLoop
  have key : ∀ n : Nat, n ≤ bound.toNat →
      ∃ st1, (List.range n).foldlM (fun (st : σ) (i : Nat) => body (Int.ofNat i) st) s
        = some st1 ∧ P n st1 := by
    intro n
    induction n with
    | zero => intro _; exact ⟨s, rfl, h0⟩
    | succ n ih =>
      intro hn
      obtain ⟨st1, h1, h2⟩ := ih (by omega)
      obtain ⟨st2, h3, h4⟩ := hstep n (by omega) st1 h2
      refine ⟨st2, ?_, h4⟩
      rw [List.range_succ, List.foldlM_append, h1]
      simp [h3]
  exact key _ le_rfl

/-- The `int` negation of a number that is not negative is its negative. -/
theorem intNeg_of_nonneg (n : Int) (h : 0 ≤ n) : intNeg n = -n := by
  unfold intNeg
  rw [if_neg (by omega)]

/-- The `int` negation of a natural number is its negative. -/
theorem intNeg_natCast (n : Nat) : intNeg (n : Int) = -(n : Int) :=
  intNeg_of_nonneg _ (Int.ofNat_nonneg n)

/-- Inside the extents the array index is below the number of cells. -/
theorem index_lt_total (SX SY SZ X Zc j : Nat) (hX : X < SX) (hZ : Zc < SZ) (hj : j < SY) :
    (X * SZ + Zc) * SY + j < SX * SZ * SY := by
  have h1 : (X * SZ + Zc) * SY + j < (X * SZ + Zc + 1) * SY := by
    rw [Nat.add_mul (X * SZ + Zc) 1 SY]; omega
  have h2 : (X * SZ + Zc + 1) * SY ≤ ((X + 1) * SZ) * SY :=
    Nat.mul_le_mul_right _ (by rw [Nat.add_mul]; omega)
  have h3 : ((X + 1) * SZ) * SY ≤ (SX * SZ) * SY :=
    Nat.mul_le_mul_right _ (Nat.mul_le_mul_right _ (by omega))
  omega

/-- The coordinate of array index `(X * SZ + Zc) * SY + j` is the remapped `(X, j, Zc)`. -/
theorem cellOfIndex_index (SY SZ X Zc j : Nat) (hZ : Zc < SZ) (hj : j < SY) :
    cellOfIndex SY SZ ((X * SZ + Zc) * SY + j) = fromNotchianXyzCoord X j Zc := by
  have hSY : 0 < SY := by omega
  have hSZ : 0 < SZ := by omega
  have e1 : ((X * SZ + Zc) * SY + j) / SY = X * SZ + Zc := by
    rw [Nat.add_comm, Nat.add_mul_div_right _ _ hSY, Nat.div_eq_of_lt hj, Nat.zero_add]
  have e2 : ((X * SZ + Zc) * SY + j) % SY = j := by
    rw [Nat.add_comm, Nat.add_mul_mod_self_right, Nat.mod_eq_of_lt hj]
  have e3 : (X * SZ + Zc) / SZ = X := by
    rw [Nat.add_comm, Nat.add_mul_div_right _ _ hSZ, Nat.div_eq_of_lt hZ, Nat.zero_add]
  have e4 : (X * SZ + Zc) % SZ = Zc := by
    rw [Nat.add_comm, Nat.add_mul_mod_self_right, Nat.mod_eq_of_lt hZ]
  simp only [cellOfIndex, e1, e2, e3, e4]

/-- One iteration of the innermost loop, when the index is inside the buffer. -/
theorem decodeBlock_step (decompressed : List Int) (SY SZ : Nat) (chunk : Chunk)
    (X Zc j : Nat) (hZ : Zc < SZ) (hj : j < SY)
    (hlen : (X * SZ + Zc) * SY + j < decompressed.length) (st : DecodeState)
    (h : DecodedUpTo decompressed SY SZ chunk ((X * SZ + Zc) * SY + j) st) :
    ∃ st1, decodeBlock decompressed { x := (X : Int), y := (j : Int), z := (Zc : Int) } st
        = some st1 ∧
      DecodedUpTo decompressed SY SZ chunk ((X * SZ + Zc) * SY + (j + 1)) st1 := by
  obtain ⟨h1, h2, h3, h4, h5⟩ := h
  have hget : decompressed[st.array_index]? = some (decompressed.getD st.array_index 0) := by
    rw [h1, List.getD_eq_getElem?_getD, List.getElem?_eq_getElem hlen]
    rfl
  unfold decodeBlock
  rw [hget]
  refine ⟨_, rfl, ?_⟩
  rw [← Nat.add_assoc]
  refine ⟨by simp [h1], ?_, h3, h4, ?_⟩
  · simp only [h1, h2, List.range_succ]
  · simp only [Chunk.setBlockType, h5, List.range_succ, List.map_append, List.reverse_append,
      List.map_cons, List.map_nil, List.reverse_cons, List.reverse_nil, List.nil_append,
      List.cons_append, h1, cellOfIndex_index SY SZ X Zc j hZ hj]

/-- The three loops read the first `sx * sz * sy` bytes in order and assign each to its cell. -/
theorem decodeBlocks_spec (decompressed : List Int) (sx sy sz : Int) (chunk : Chunk)
    (hlen : sx.toNat * sz.toNat * sy.toNat ≤ decompressed.length) :
    ∃ st, decodeBlocks decompressed { x := sx, y := sy, z := sz } chunk = some st ∧
      DecodedUpTo decompressed sy.toNat sz.toNat chunk (sx.toNat * sz.toNat * sy.toNat) st := by
  unfold decodeBlocks
  have outer := forLoop_invariant sx
    (fun x st => forLoop sz (fun z st => forLoop sy (fun y st =>
      decodeBlock decompressed { x := x, y := y, z := z } st) st) st)
    (fun X st => DecodedUpTo decompressed sy.toNat sz.toNat chunk
      ((X * sz.toNat + 0) * sy.toNat) st)
    { array_index := 0, chunk := chunk, reads := [] }
    (by simp [DecodedUpTo]) ?_
  · simpa using outer
  · intro X hX st hst
    have middle := forLoop_invariant sz
      (fun z st => forLoop sy (fun y st =>
        decodeBlock decompressed { x := (X : Int), y := y, z := z } st) st)
      (fun Zc st => DecodedUpTo decompressed sy.toNat sz.toNat chunk
        ((X * sz.toNat + Zc) * sy.toNat) st)
      st hst ?_
    · obtain ⟨st1, h1, h2⟩ := middle
      refine ⟨st1, h1, ?_⟩
      have e : (X * sz.toNat + sz.toNat) * sy.toNat = ((X + 1) * sz.toNat + 0) * sy.toNat := by
        ring
      rw [e] at h2
      exact h2
    · intro Zc hZ st2 hst2
      have inner := forLoop_invariant sy
        (fun y st => decodeBlock decompressed { x := (X : Int), y := y, z := (Zc : Int) } st)
        (fun j st => DecodedUpTo decompressed sy.toNat sz.toNat chunk
          ((X * sz.toNat + Zc) * sy.toNat + j) st)
        st2 (by simpa using hst2) ?_
      · obtain ⟨st3, h1, h2⟩ := inner
        refine ⟨st3, h1, ?_⟩
        have e : (X * sz.toNat + Zc) * sy.toNat + sy.toNat
            = (X * sz.toNat + (Zc + 1)) * sy.toNat := by ring
        rw [e] at h2
        exact h2
      · intro j hj st3 hst3
        have hX1 : X < sx.toNat := by omega
        have hZ1 : Zc < sz.toNat := by omega
        have hj1 : j < sy.toNat := by omega
        exact decodeBlock_step decompressed sy.toNat sz.toNat chunk X Zc j hZ1 hj1
          (lt_of_lt_of_le (index_lt_total _ _ _ X Zc j hX1 hZ1 hj1) hlen) st3 hst3


/-- In a list whose second components are a function of the first, the lookup of a key that
occurs returns the value of that function. -/
theorem find_functional (l : List (Coord × Int)) (g : Coord → Int) (k : Coord)
    (hfun : ∀ w ∈ l, w.2 = g w.1) (hex : ∃ w ∈ l, w.1 = k) :
    (l.find? (fun w => decide (w.1 = k))).map (fun w => w.2) = some (g k) := by
  cases h : l.find? (fun w => decide (w.1 = k)) with
  | none =>
    obtain ⟨w, hw, hk⟩ := hex
    have := List.find?_eq_none.mp h w hw
    simp [hk] at this
  | some w =>
    have h1 := List.find?_some h
    have h2 := List.mem_of_find?_eq_some h
    simp only [decide_eq_true_eq] at h1
    simp [hfun w h2, h1]

/-- A buffer that holds `sx * sy * sz` bytes holds as many bytes as the loops read. -/
theorem toNat_product_le (sx sy sz : Int) (n : Nat) (h : sx * sy * sz ≤ (n : Int)) :
    sx.toNat * sz.toNat * sy.toNat ≤ n := by
  by_cases hx : 0 < sx
  · by_cases hy : 0 < sy
    · by_cases hz : 0 < sz
      · have e : ((sx.toNat * sz.toNat * sy.toNat : Nat) : Int) = sx * sy * sz := by
          push_cast
          rw [Int.toNat_of_nonneg hx.le, Int.toNat_of_nonneg hy.le, Int.toNat_of_nonneg hz.le]
          ring
        have : ((sx.toNat * sz.toNat * sy.toNat : Nat) : Int) ≤ (n : Int) := by rw [e]; exact h
        exact_mod_cast this
      · have : sz.toNat = 0 := by omega
        simp [this]
    · have : sy.toNat = 0 := by omega
      simp [this]
  · have : sx.toNat = 0 := by omega
    simp [this]

/-- What `sendMessage` leaves alone: login state, notifications, timer and position. -/
theorem sendMessage_state (msg : OutgoingRequest) (s : Server) :
    (sendMessage msg s).m_login_state = s.m_login_state ∧
    (sendMessage msg s).emitted = s.emitted ∧
    (sendMessage msg s).m_position_update_timer = s.m_position_update_timer ∧
    (sendMessage msg s).player_position = s.player_position := by
  unfold sendMessage socketDisconnect
  by_cases h1 : msg = OutgoingRequest.DummyDisconnectRequest <;>
    by_cases h2 : s.socket_isOpen = true <;> simp [h1, h2]

/-- One event leaves the timer alone, unless it is a PlayerPositionAndLook response that is
processed, which may set a running timer of interval 200. -/
theorem step_timer (env : Externals) (e : Event) (s : Server) :
    (step env e s).state.m_position_update_timer = s.m_position_update_timer ∨
    ((step env e s).state.m_position_update_timer = some { interval := 200, active := true } ∧
      ∃ s1, step env e s = Outcome.ok s1 ∧
      ∃ x y z stance yaw pitch on_ground,
        e = Event.message (IncomingResponse.PlayerPositionAndLook x y z stance yaw pitch
          on_ground)) := by
  cases e with
  | connect => left; rfl
  | connected =>
    left
    simp only [step, Outcome.state, handleConnected]
    rw [(sendMessage_state _ _).2.2.1]; rfl
  | disconnected => left; rfl
  | disconnect =>
    left
    simp only [step, Outcome.state, socketDisconnect]
    split_ifs <;> rfl
  | submit msg =>
    left
    simp only [step, Outcome.state]
    exact (sendMessage_state msg s).2.2.1
  | socketError error => left; rfl
  | timeout =>
    left
    simp only [step]
    cases ht : s.m_position_update_timer with
    | none => simp [Outcome.state, ht]
    | some timer =>
      simp only
      split_ifs
      · simp only [Outcome.state, sendPosition]
        rw [(sendMessage_state _ s).2.2.1]
        exact ht
      · exact ht
  | transport isOpen => left; rfl
  | message m =>
    cases m with
    | Handshake connectionHash =>
      left
      simp only [step, processIncomingMessage]
      split_ifs
      · rfl
      · rfl
      · simp only [Outcome.state]
        rw [(sendMessage_state _ _).2.2.1]; rfl
    | PlayerPositionAndLook x y z stance yaw pitch on_ground =>
      by_cases h : s.m_login_state = LoginStatus.WaitingForPlayerPositionAndLook
      · right
        refine ⟨?_, ?_⟩
        · simp [step, processIncomingMessage, h, Outcome.state,
            gotFirstPlayerPositionAndLookResponse, changeLoginState]
        · have hok : ∃ s1, step env (Event.message (IncomingResponse.PlayerPositionAndLook
              x y z stance yaw pitch on_ground)) s = Outcome.ok s1 := by
            simp only [step, processIncomingMessage]
            split_ifs
            exact ⟨_, rfl⟩
          obtain ⟨s1, hs1⟩ := hok
          exact ⟨s1, hs1, x, y, z, stance, yaw, pitch, on_ground, rfl⟩
      · left
        simp [step, processIncomingMessage, h, Outcome.state]
    | MapChunk x y z mx my mz compressed_data =>
      left
      simp only [step, processIncomingMessage]
      split <;> rfl
    | DisconnectOrKick reason =>
      left
      simp only [step, processIncomingMessage, Outcome.state, finishWritingAndDisconnect]
      rw [(sendMessage_state _ _).2.2.1]
    | Other messageType => left; rfl

/-- Along a run the timer keeps its value, unless a PlayerPositionAndLook response is among
the events processed, and then it is a running timer of interval 200. -/
theorem run_timer (env : Externals) (events : List Event) :
    ∀ s : Server,
    (runEvents env events s).state.m_position_update_timer = s.m_position_update_timer ∨
    ((runEvents env events s).state.m_position_update_timer
        = some { interval := 200, active := true } ∧
      ∃ x y z stance yaw pitch on_ground,
        Event.message (IncomingResponse.PlayerPositionAndLook x y z stance yaw pitch on_ground)
          ∈ processedEvents env events s) := by
  induction events with
  | nil => intro s; left; rfl
  | cons e rest ih =>
    intro s
    have h1 := step_timer env e s
    cases hstep : step env e s with
    | aborted s1 failure =>
      rw [hstep] at h1
      rcases h1 with h1 | ⟨-, s2, h2, -⟩
      · left
        simp only [runEvents, hstep]
        exact h1
      · cases h2
    | ok s1 =>
      rw [hstep] at h1
      simp only [runEvents, processedEvents, hstep]
      rcases ih s1 with h2 | ⟨h2, x, y, z, stance, yaw, pitch, on_ground, h3⟩
      · rcases h1 with h1 | ⟨h1, -, -, x, y, z, stance, yaw, pitch, on_ground, h4⟩
        · left
          rw [h2]; exact h1
        · right
          refine ⟨by rw [h2]; exact h1, x, y, z, stance, yaw, pitch, on_ground, ?_⟩
          rw [h4]
          exact List.mem_cons_self _ _
      · right
        exact ⟨h2, x, y, z, stance, yaw, pitch, on_ground, List.mem_cons_of_mem _ h3⟩

/-- The login states notified by two lists of signals, one after the other. -/
theorem loginStates_append (a b : List Signal) :
    loginStates (a ++ b) = loginStates a ++ loginStates b := by
  induction a with
  | nil => rfl
  | cons sig rest ih =>
    cases sig with
    | loginStatusUpdated state => simp [loginStates, ih]
    | mapChunkUpdated chunk => simp [loginStates, ih]
    | socketDisconnected => simp [loginStates, ih]

/-- One more state at the end of the sequence adds one change, from the last state. -/
theorem transitionsFrom_append (l : List LoginStatus) (next : LoginStatus) :
    ∀ start : LoginStatus, transitionsFrom start (l ++ [next])
      = transitionsFrom start l ++ [(l.getLastD start, next)] := by
  induction l with
  | nil => intro start; rfl
  | cons a rest ih =>
    intro start
    show (start, a) :: transitionsFrom a (rest ++ [next])
      = (start, a) :: transitionsFrom a rest ++ [((a :: rest).getLastD start, next)]
    rw [ih a, List.getLastD_cons]
    rfl

/-- An assignment of the login state in order keeps the invariant. -/
theorem changeLoginState_invariant (state : LoginStatus) (s : Server)
    (h : LoginInvariant s) (ho : orderedTransition (s.m_login_state, state)) :
    LoginInvariant (changeLoginState state s) := by
  obtain ⟨h1, h2⟩ := h
  constructor
  · simp [changeLoginState, loginStates_append, loginStates]
  · intro t ht
    simp only [changeLoginState, loginStates_append, loginStates, transitionsFrom_append,
      List.mem_append, List.mem_singleton] at ht
    rcases ht with ht | ht
    · exact h2 t ht
    · rw [ht, ← h1]; exact ho

/-- The invariant only looks at the login state and the login states notified. -/
theorem loginInvariant_congr (s s1 : Server) (h : LoginInvariant s)
    (h1 : s1.m_login_state = s.m_login_state)
    (h2 : loginStates s1.emitted = loginStates s.emitted) : LoginInvariant s1 := by
  unfold LoginInvariant
  rw [h1, h2]
  exact h

/-- `sendMessage` keeps the invariant. -/
theorem sendMessage_invariant (msg : OutgoingRequest) (s : Server) (h : LoginInvariant s) :
    LoginInvariant (sendMessage msg s) :=
  loginInvariant_congr s _ h (sendMessage_state msg s).1
    (by rw [(sendMessage_state msg s).2.1])

/-- Every event keeps the invariant. -/
theorem step_invariant (env : Externals) (e : Event) (s : Server) (h : LoginInvariant s) :
    LoginInvariant (step env e s).state := by
  cases e with
  | connect =>
    refine loginInvariant_congr (changeLoginState LoginStatus.Connecting s) _
      (changeLoginState_invariant LoginStatus.Connecting s h (by simp [orderedTransition]))
      rfl rfl
  | connected =>
    simp only [step, Outcome.state, handleConnected]
    exact sendMessage_invariant _ _
      (changeLoginState_invariant LoginStatus.WaitingForHandshakeResponse _
        (loginInvariant_congr s _ h rfl rfl) (by simp [orderedTransition]))
  | disconnected =>
    refine loginInvariant_congr (changeLoginState LoginStatus.Disconnected s) _
      (changeLoginState_invariant LoginStatus.Disconnected s h (by simp [orderedTransition]))
      rfl ?_
    simp [step, Outcome.state, cleanUpAfterDisconnect, terminate, changeLoginState,
      loginStates_append, loginStates]
  | disconnect =>
    simp only [step, Outcome.state, socketDisconnect]
    split_ifs
    · exact loginInvariant_congr s _ h rfl rfl
    · exact h
  | submit msg => exact sendMessage_invariant msg s h
  | socketError error =>
    simp only [step, Outcome.state, handleSocketError]
    exact changeLoginState_invariant LoginStatus.SocketError _
      (loginInvariant_congr s _ h rfl rfl) (by simp [orderedTransition])
  | timeout =>
    simp only [step]
    cases ht : s.m_position_update_timer with
    | none => exact h
    | some timer =>
      simp only
      split_ifs
      · simp only [Outcome.state, sendPosition]
        exact sendMessage_invariant _ s h
      · exact h
  | transport isOpen => exact loginInvariant_congr s _ h rfl rfl
  | message m =>
    cases m with
    | Handshake connectionHash =>
      simp only [step, processIncomingMessage]
      split_ifs with h1 h2
      · exact h
      · exact h
      · simp only [ne_eq, not_not] at h1
        simp only [Outcome.state]
        refine sendMessage_invariant _ _
          (changeLoginState_invariant LoginStatus.WaitingForPlayerPositionAndLook _
            (changeLoginState_invariant LoginStatus.WaitingForLoginResponse s h ?_) ?_)
        · simp [orderedTransition, h1]
        · simp [orderedTransition, changeLoginState]
    | PlayerPositionAndLook x y z stance yaw pitch on_ground =>
      simp only [step, processIncomingMessage]
      split_ifs with h1
      · simp only [Outcome.state, gotFirstPlayerPositionAndLookResponse]
        refine changeLoginState_invariant LoginStatus.Success _
          (loginInvariant_congr s _ h rfl rfl) ?_
        simp only [orderedTransition]
        exact ⟨fun _ => h1, by simp, by simp⟩
      · exact loginInvariant_congr s _ h rfl rfl
    | MapChunk x y z mx my mz compressed_data =>
      simp only [step, processIncomingMessage]
      split
      · exact h
      · refine loginInvariant_congr s _ h rfl ?_
        simp [Outcome.state, loginStates_append, loginStates]
    | DisconnectOrKick reason =>
      simp only [step, processIncomingMessage, Outcome.state, finishWritingAndDisconnect]
      exact sendMessage_invariant _ _ (loginInvariant_congr s _ h rfl rfl)
    | Other messageType => exact h

/-- Every run keeps the invariant. -/
theorem run_invariant (env : Externals) (events : List Event) :
    ∀ s : Server, LoginInvariant s → LoginInvariant (runEvents env events s).state := by
  induction events with
  | nil => intro s h; exact h
  | cons e rest ih =>
    intro s h
    have h1 := step_invariant env e s h
    cases hstep : step env e s with
    | aborted s1 failure =>
      rw [hstep] at h1
      simp only [runEvents, hstep]
      exact h1
    | ok s1 =>
      rw [hstep] at h1
      simp only [runEvents, hstep]
      exact ih s1 h1

/-- Loop rule without a claim of success: if the loop ends, the invariant holds at its end. -/
theorem forLoop_partial {σ : Type} (bound : Int) (body : Int → σ → Option σ)
    (P : Nat → σ → Prop) (s : σ) (h0 : P 0 s)
    (hstep : ∀ i : Nat, (i : Int) < bound → ∀ st st1, P i st →
      body (i : Int) st = some st1 → P (i + 1) st1) :
    ∀ st1, forLoop bound body s = some st1 → P bound.toNat st1 := by
  unfold forLoop
  have key : ∀ n : Nat, n ≤ bound.toNat → ∀ st1,
      (List.range n).foldlM (fun (st : σ) (i : Nat) => body (Int.ofNat i) st) s = some st1 →
      P n st1 := by
    intro n
    induction n with
    | zero =>
      intro _ st1 h
      simp only [List.range_zero, List.foldlM_nil] at h
      cases h
      exact h0
    | succ n ih =>
      intro hn st1 h
      rw [List.range_succ, List.foldlM_append] at h
      cases h1 : (List.range n).foldlM (fun (st : σ) (i : Nat) => body (Int.ofNat i) st) s with
      | none => rw [h1] at h; simp at h
      | some st0 =>
        rw [h1] at h
        simp only [Option.some_bind, List.foldlM_cons, List.foldlM_nil, Option.bind_eq_bind] at h
        have h2 : body (Int.ofNat n) st0 = some st1 := by
          cases hb : body (Int.ofNat n) st0 with
          | none => rw [hb] at h; simp at h
          | some st2 => rw [hb] at h; simpa using h
        exact hstep n (by omega) st0 st1 (ih (by omega) st0 h1) h2
  exact key _ le_rfl

/-- A successful run of the innermost loop body has read inside the buffer. -/
theorem decodeBlock_some (decompressed : List Int) (pos : Coord) (st st1 : DecodeState)
    (h : decodeBlock decompressed pos st = some st1) :
    st.array_index < decompressed.length ∧ st1.array_index = st.array_index + 1 := by
  unfold decodeBlock at h
  cases hg : decompressed[st.array_index]? with
  | none => rw [hg] at h; simp at h
  | some v =>
    rw [hg] at h
    simp only [Option.some.injEq] at h
    subst h
    exact ⟨(List.getElem?_eq_some.mp hg).1, rfl⟩

/-- If the three loops end, the buffer holds at least as many bytes as they read. -/
theorem decodeBlocks_some_length (decompressed : List Int) (sx sy sz : Int) (chunk : Chunk)
    (st : DecodeState)
    (h : decodeBlocks decompressed { x := sx, y := sy, z := sz } chunk = some st) :
    sx.toNat * sz.toNat * sy.toNat ≤ decompressed.length := by
  unfold decodeBlocks at h
  have outer := forLoop_partial sx
    (fun x st => forLoop sz (fun z st => forLoop sy (fun y st =>
      decodeBlock decompressed { x := x, y := y, z := z } st) st) st)
    (fun X st => st.array_index = (X * sz.toNat + 0) * sy.toNat ∧
      st.array_index ≤ decompressed.length)
    { array_index := 0, chunk := chunk, reads := [] }
    (by simp) ?_ st h
  · obtain ⟨h1, h2⟩ := outer
    rw [h1] at h2
    simpa using h2
  · intro X _ st0 st1 hst hbody
    have middle := forLoop_partial sz
      (fun z st => forLoop sy (fun y st =>
        decodeBlock decompressed { x := (X : Int), y := y, z := z } st) st)
      (fun Zc st => st.array_index = (X * sz.toNat + Zc) * sy.toNat ∧
        st.array_index ≤ decompressed.length)
      st0 hst ?_ st1 hbody
    · obtain ⟨h1, h2⟩ := middle
      refine ⟨?_, h2⟩
      rw [h1]; ring
    · intro Zc _ st2 st3 hst2 hbody2
      have inner := forLoop_partial sy
        (fun y st => decodeBlock decompressed { x := (X : Int), y := y, z := (Zc : Int) } st)
        (fun j st => st.array_index = (X * sz.toNat + Zc) * sy.toNat + j ∧
          st.array_index ≤ decompressed.length)
        st2 (by simpa using hst2) ?_ st3 hbody2
      · obtain ⟨h1, h2⟩ := inner
        refine ⟨?_, h2⟩
        rw [h1]; ring
      · intro j _ st4 st5 hst4 hbody4
        obtain ⟨h1, h2⟩ := decodeBlock_some _ _ _ _ hbody4
        refine ⟨?_, ?_⟩
        · rw [h2, hst4.1]; ring
        · omega

/-- The invariant determines the state. -/
theorem decodedUpTo_eq (decompressed : List Int) (sy sz : Nat) (chunk : Chunk) (n : Nat)
    (st : DecodeState) (h : DecodedUpTo decompressed sy sz chunk n st) :
    st = decodedState decompressed sy sz n chunk := by
  obtain ⟨h1, h2, h3, h4, h5⟩ := h
  cases st with
  | mk array_index chunk1 reads =>
    cases chunk1 with
    | mk position size writes =>
      simp only at h1 h2 h3 h4 h5
      simp [decodedState, h1, h2, h3, h4, h5]

/-- The three loops end exactly when the buffer holds the bytes they read, and then in the
state `decodedState`. -/
theorem decodeBlocks_eq (decompressed : List Int) (sx sy sz : Int) (chunk : Chunk) :
    decodeBlocks decompressed { x := sx, y := sy, z := sz } chunk =
      if sx.toNat * sz.toNat * sy.toNat ≤ decompressed.length then
        some (decodedState decompressed sy.toNat sz.toNat (sx.toNat * sz.toNat * sy.toNat) chunk)
      else none := by
  split_ifs with h
  · obtain ⟨st, h1, h2⟩ := decodeBlocks_spec decompressed sx sy sz chunk h
    rw [h1, decodedUpTo_eq _ _ _ _ _ _ h2]
  · cases hres : decodeBlocks decompressed { x := sx, y := sy, z := sz } chunk with
    | none => rfl
    | some st => exact absurd (decodeBlocks_some_length _ _ _ _ _ _ hres) h

/-- The array index is recovered from the coordinate written. -/
theorem indexOfCell_cellOfIndex (sy sz i : Nat) : indexOfCell sy sz (cellOfIndex sy sz i) = i := by
  simp only [indexOfCell, cellOfIndex, fromNotchianXyzCoord, intNeg_natCast, neg_neg,
    Int.toNat_ofNat]
  have a1 := Nat.div_add_mod i sy
  have a2 := Nat.div_add_mod (i / sy) sz
  rw [Nat.mul_comm] at a2
  rw [a2, Nat.mul_comm]
  exact a1

/-- Different array indices are written to different coordinates. -/
theorem cellOfIndex_injective (sy sz : Nat) : Function.Injective (cellOfIndex sy sz) := by
  intro i j h
  have := congrArg (indexOfCell sy sz) h
  rwa [indexOfCell_cellOfIndex, indexOfCell_cellOfIndex] at this

/-- The coordinates written for the first `SX * SZ * SY` indices are those of the box
`0 ≤ x < SZ`, `-SX < y ≤ 0`, `0 ≤ z < SY`. -/
theorem mem_cells_iff (SX SY SZ : Nat) (c : Coord) :
    c ∈ (List.range (SX * SZ * SY)).map (cellOfIndex SY SZ) ↔
      (0 ≤ c.x ∧ c.x < (SZ : Int) ∧ -(SX : Int) < c.y ∧ c.y ≤ 0 ∧ 0 ≤ c.z ∧ c.z < (SY : Int)) := by
  constructor
  · intro h
    simp only [List.mem_map, List.mem_range] at h
    obtain ⟨i, hi, rfl⟩ := h
    have hSY : 0 < SY := by
      rcases Nat.eq_zero_or_pos SY with h | h
      · rw [h] at hi; simp at hi
      · exact h
    have hSZ : 0 < SZ := by
      rcases Nat.eq_zero_or_pos SZ with h | h
      · rw [h] at hi; simp at hi
      · exact h
    have h1 : i / SY < SX * SZ := Nat.div_lt_of_lt_mul (by rw [Nat.mul_comm]; exact hi)
    have h2 : i / SY / SZ < SX := Nat.div_lt_of_lt_mul (by rw [Nat.mul_comm]; exact h1)
    have h3 : i / SY % SZ < SZ := Nat.mod_lt _ hSZ
    have h4 : i % SY < SY := Nat.mod_lt _ hSY
    simp only [cellOfIndex, fromNotchianXyzCoord, intNeg_natCast]
    clear h1 hi
    generalize i / SY / SZ = a at h2 ⊢
    generalize i / SY % SZ = b at h3 ⊢
    generalize i % SY = d at h4 ⊢
    omega
  · rintro ⟨h1, h2, h3, h4, h5, h6⟩
    simp only [List.mem_map, List.mem_range]
    refine ⟨((-c.y).toNat * SZ + c.x.toNat) * SY + c.z.toNat, ?_, ?_⟩
    · exact index_lt_total SX SY SZ _ _ _ (by omega) (by omega) (by omega)
    · rw [cellOfIndex_index SY SZ _ _ _ (by omega) (by omega)]
      cases c with
      | mk cx cy cz =>
        simp only [fromNotchianXyzCoord, intNeg_natCast, Coord.mk.injEq] at *
        omega

/-- The `MapChunk` case up to the filled chunk ends exactly when the buffer holds the bytes
the loops read, and then in the state `decodedState`. -/
theorem decodeMapChunk_eq (decompressed : List Int) (x y z mx my mz : Int) :
    decodeMapChunk decompressed x y z mx my mz =
      if (mx + 1).toNat * (mz + 1).toNat * (my + 1).toNat ≤ decompressed.length then
        some (decodedState decompressed (my + 1).toNat (mz + 1).toNat
          ((mx + 1).toNat * (mz + 1).toNat * (my + 1).toNat)
          (Chunk.new (fromNotchianXyzCoord x y z)
            (fromNotchianXyzCoord (mx + 1) (my + 1) (mz + 1))))
      else none := by
  unfold decodeMapChunk
  exact decodeBlocks_eq decompressed (mx + 1) (my + 1) (mz + 1) _

/-- The `MapChunk` case of `processIncomingMessage` succeeds exactly when the loops end, and
then emits the chunk in `decodedState`. -/
theorem processIncomingMessage_mapChunk (env : Externals) (s s1 : Server)
    (x y z mx my mz : Int) (compressed_data : List Int)
    (h : processIncomingMessage env
      (IncomingResponse.MapChunk x y z mx my mz compressed_data) s = Outcome.ok s1) :
    (mx + 1).toNat * (mz + 1).toNat * (my + 1).toNat
      ≤ (env.qUncompress ([0, 0, 0, 0] ++ compressed_data)).length ∧
    s1 = { s with emitted := s.emitted ++ [Signal.mapChunkUpdated
      (decodedState (env.qUncompress ([0, 0, 0, 0] ++ compressed_data)) (my + 1).toNat
        (mz + 1).toNat ((mx + 1).toNat * (mz + 1).toNat * (my + 1).toNat)
        (Chunk.new (fromNotchianXyzCoord x y z)
          (fromNotchianXyzCoord (mx + 1) (my + 1) (mz + 1)))).chunk] } := by
  simp only [processIncomingMessage, decodeMapChunk_eq] at h
  split_ifs at h with hlen
  simp only [Outcome.ok.injEq] at h
  exact ⟨hlen, h.symm⟩

/-- The `MapChunk` case of `processIncomingMessage` succeeds when the buffer holds the bytes
of the extents. -/
theorem processIncomingMessage_mapChunk_ok (env : Externals) (s : Server)
    (x y z mx my mz : Int) (compressed_data : List Int)
    (h : (mx + 1) * (my + 1) * (mz + 1)
      ≤ ((env.qUncompress ([0, 0, 0, 0] ++ compressed_data)).length : Int)) :
    ∃ s1, processIncomingMessage env
      (IncomingResponse.MapChunk x y z mx my mz compressed_data) s = Outcome.ok s1 := by
  have hlen := toNat_product_le _ _ _ _ h
  simp only [processIncomingMessage, decodeMapChunk_eq, if_pos hlen]
  exact ⟨_, rfl⟩

/-- The `MapChunk` case of `processIncomingMessage` fails the assertion of `QByteArray::at`,
with the state unchanged, when the buffer holds fewer bytes than the loops read. -/
theorem processIncomingMessage_mapChunk_short (env : Externals) (s : Server)
    (x y z mx my mz : Int) (compressed_data : List Int)
    (h : (env.qUncompress ([0, 0, 0, 0] ++ compressed_data)).length
      < (mx + 1).toNat * (mz + 1).toNat * (my + 1).toNat) :
    processIncomingMessage env
      (IncomingResponse.MapChunk x y z mx my mz compressed_data) s
      = Outcome.aborted s Fatal.byteArrayIndexAssert := by
  simp only [processIncomingMessage, decodeMapChunk_eq, if_neg (not_le.mpr h)]

/-- For extents that are not negative the number of bytes the loops read is the product of
the extents. -/
theorem toNat_product_eq (sx sy sz : Int) (hx : 0 ≤ sx) (hy : 0 ≤ sy) (hz : 0 ≤ sz) :
    ((sx.toNat * sz.toNat * sy.toNat : Nat) : Int) = sx * sy * sz := by
  push_cast
  rw [Int.toNat_of_nonneg hx, Int.toNat_of_nonneg hy, Int.toNat_of_nonneg hz]
  ring

/-- The coordinates written, newest first. -/
theorem decodedState_cells (decompressed : List Int) (sy sz n : Nat) (position size : Coord) :
    (decodedState decompressed sy sz n (Chunk.new position size)).chunk.writes.map Prod.fst
      = ((List.range n).map (cellOfIndex sy sz)).reverse := by
  simp [decodedState, Chunk.new, List.map_reverse, Function.comp_def]

/-- The coordinates written are written once each. -/
theorem decodedState_nodup (decompressed : List Int) (sy sz n : Nat) (position size : Coord) :
    ((decodedState decompressed sy sz n (Chunk.new position size)).chunk.writes.map
      Prod.fst).Nodup := by
  rw [decodedState_cells, List.nodup_reverse]
  exact (List.nodup_range n).map (cellOfIndex_injective sy sz)

namespace F32

/-- The binade of `q` ends above `|q|`. -/
theorem lt_zpow_ilog2 (q : ℚ) (hq : q ≠ 0) : |q| < (2 : ℚ) ^ (ilog2 q + 1) := by
  have ha : q.num.natAbs ≠ 0 := by simpa using hq
  have hb : q.den ≠ 0 := q.den_nz
  obtain ⟨-, h1⟩ := natLog2_spec _ ha
  obtain ⟨h2, -⟩ := natLog2_spec _ hb
  have e : |q| = (q.num.natAbs : ℚ) / (q.den : ℚ) := by
    conv_lhs => rw [← Rat.num_div_den q]
    rw [abs_div, Nat.cast_natAbs, Nat.abs_cast]
    simp
  have h1q : (q.num.natAbs : ℚ) < (2 : ℚ) ^ (natLog2 q.num.natAbs + 1) := by exact_mod_cast h1
  have h2q : (2 : ℚ) ^ natLog2 q.den ≤ (q.den : ℚ) := by exact_mod_cast h2
  have hbpos : (0 : ℚ) < q.den := by exact_mod_cast q.den_pos
  have key : |q| < (2 : ℚ) ^ ((natLog2 q.num.natAbs : Int) - (natLog2 q.den : Int) + 1) := by
    have e2 : (2 : ℚ) ^ ((natLog2 q.num.natAbs : Int) - (natLog2 q.den : Int) + 1)
        = (2 : ℚ) ^ (natLog2 q.num.natAbs + 1) / (2 : ℚ) ^ natLog2 q.den := by
      have : ((natLog2 q.num.natAbs : Int) - (natLog2 q.den : Int) + 1)
          = ((natLog2 q.num.natAbs + 1 : Nat) : Int) - ((natLog2 q.den : Nat) : Int) := by
        push_cast; ring
      rw [this, zpow_sub₀ (by norm_num), zpow_natCast, zpow_natCast]
    rw [e2, e]
    exact div_lt_div₀ (h1q) h2q (by positivity) (by positivity)
  unfold ilog2
  simp only
  split_ifs with h
  · exact key
  · rw [sub_add_cancel]
    exact not_le.mp h

/-- The exponent used for rounding `q` is at most `k` when `|q| < 2 ^ (k + 1)`. -/
theorem binade_le (q : ℚ) (k : Int) (hq : q ≠ 0) (hk : -126 ≤ k)
    (h : |q| < (2 : ℚ) ^ (k + 1)) : max (ilog2 q) (-126) ≤ k := by
  have h1 := zpow_ilog2_le q hq
  have h2 : (2 : ℚ) ^ ilog2 q < (2 : ℚ) ^ (k + 1) := lt_of_le_of_lt h1 h
  have h3 : ilog2 q < k + 1 := (zpow_lt_zpow_iff_right₀ (by norm_num : (1 : ℚ) < 2)).mp h2
  exact max_le (by omega) hk

/-- The exponent used for rounding `q` is at least `k` when `2 ^ k ≤ |q|`. -/
theorem le_binade (q : ℚ) (k : Int) (hq : q ≠ 0) (h : (2 : ℚ) ^ k ≤ |q|) :
    k ≤ max (ilog2 q) (-126) := by
  have h1 := lt_zpow_ilog2 q hq
  have h2 : (2 : ℚ) ^ k < (2 : ℚ) ^ (ilog2 q + 1) := lt_of_le_of_lt h h1
  have h3 : k < ilog2 q + 1 := (zpow_lt_zpow_iff_right₀ (by norm_num : (1 : ℚ) < 2)).mp h2
  exact le_max_of_le_left (by omega)

end F32

/-- A multiple of a coarser power of two is a multiple of a finer one. -/
theorem OnGrid.mono {j i : Int} {q : ℚ} (h : OnGrid j q) (hij : i ≤ j) : OnGrid i q := by
  obtain ⟨n, rfl⟩ := h
  refine ⟨n * 2 ^ (j - i).toNat, ?_⟩
  have e : (2 : ℚ) ^ j = 2 ^ (j - i).toNat * 2 ^ i := by
    rw [← zpow_natCast, ← zpow_add₀ (by norm_num)]
    congr 1
    rw [Int.toNat_of_nonneg (by omega)]
    ring
  rw [e]
  push_cast
  ring

/-- Sums of multiples are multiples. -/
theorem OnGrid.add {j : Int} {a b : ℚ} (ha : OnGrid j a) (hb : OnGrid j b) :
    OnGrid j (a + b) := by
  obtain ⟨n, rfl⟩ := ha
  obtain ⟨m, rfl⟩ := hb
  exact ⟨n + m, by push_cast; ring⟩

/-- Differences of multiples are multiples. -/
theorem OnGrid.sub {j : Int} {a b : ℚ} (ha : OnGrid j a) (hb : OnGrid j b) :
    OnGrid j (a - b) := by
  obtain ⟨n, rfl⟩ := ha
  obtain ⟨m, rfl⟩ := hb
  exact ⟨n - m, by push_cast; ring⟩

/-- Whole multiples of a multiple are multiples. -/
theorem OnGrid.int_mul {j : Int} {a : ℚ} (t : Int) (ha : OnGrid j a) :
    OnGrid j ((t : ℚ) * a) := by
  obtain ⟨n, rfl⟩ := ha
  exact ⟨t * n, by push_cast; ring⟩

/-- A negative multiple of `2 ^ j` is at most `-2 ^ j`. -/
theorem OnGrid.le_neg_of_neg {j : Int} {q : ℚ} (h : OnGrid j q) (hq : q < 0) :
    q ≤ -(2 : ℚ) ^ j := by
  obtain ⟨n, rfl⟩ := h
  have hpos : (0 : ℚ) < 2 ^ j := by positivity
  have hn : (n : ℚ) < 0 := by
    by_contra hc
    push_neg at hc
    have : (0 : ℚ) ≤ (n : ℚ) * 2 ^ j := mul_nonneg hc hpos.le
    linarith
  have hn1 : n ≤ -1 := by
    have : n < 0 := by exact_mod_cast hn
    omega
  have hn2 : (n : ℚ) ≤ -1 := by exact_mod_cast hn1
  have := mul_le_mul_of_nonneg_right hn2 hpos.le
  linarith

namespace F32

/-- Rounding to the nearest integer does not pass an integer above. -/
theorem roundEven_le (x : ℚ) (n : Int) (h : x ≤ (n : ℚ)) : roundEven x ≤ n := by
  have h1 : ⌊x⌋ ≤ n := Int.floor_le_iff.mpr (by linarith [Int.lt_floor_add_one x, Int.floor_le x])
  have hfl := Int.floor_le x
  unfold roundEven
  simp only
  by_cases hfn : ⌊x⌋ = n
  · have hx : x = (n : ℚ) := le_antisymm h (by rw [← hfn]; exact hfl)
    have hr : x - (⌊x⌋ : ℚ) = 0 := by rw [hfn, hx]; ring
    rw [hr]
    norm_num
    omega
  · have : ⌊x⌋ + 1 ≤ n := by omega
    split_ifs <;> omega

/-- Rounding to the nearest integer does not pass an integer below. -/
theorem le_roundEven (x : ℚ) (n : Int) (h : (n : ℚ) ≤ x) : n ≤ roundEven x := by
  have h1 : n ≤ ⌊x⌋ := Int.le_floor.mpr h
  unfold roundEven
  simp only
  split_ifs <;> omega

/-- The rounded value is a multiple of the spacing of its binade. -/
theorem round_onGrid (q : ℚ) : OnGrid (max (ilog2 q) (-126) - 23) (round q) := by
  unfold round
  split_ifs with h
  · exact ⟨0, by simp⟩
  · exact ⟨_, rfl⟩

/-- Rounding does not pass a representable value above. -/
theorem round_le_of_le (q b : ℚ) (k : Int) (hk : -126 ≤ k) (hq : |q| < (2 : ℚ) ^ (k + 1))
    (hb : OnGrid (k - 23) b) (h : q ≤ b) : round q ≤ b := by
  by_cases h0 : q = 0
  · subst h0
    simpa [round] using h
  · have he := binade_le q k h0 hk hq
    obtain ⟨N, hN⟩ := hb.mono (show max (ilog2 q) (-126) - 23 ≤ k - 23 by omega)
    unfold round
    rw [if_neg h0]
    simp only
    have hu : (0 : ℚ) < 2 ^ (max (ilog2 q) (-126) - 23) := by positivity
    have h1 : q / 2 ^ (max (ilog2 q) (-126) - 23) ≤ (N : ℚ) := by
      rw [div_le_iff₀ hu, ← hN]; exact h
    have h2 : ((roundEven (q / 2 ^ (max (ilog2 q) (-126) - 23)) : Int) : ℚ) ≤ (N : ℚ) := by
      exact_mod_cast roundEven_le _ _ h1
    rw [hN]
    exact mul_le_mul_of_nonneg_right h2 hu.le

/-- Rounding does not pass a representable value below. -/
theorem le_round_of_le (q b : ℚ) (k : Int) (hk : -126 ≤ k) (hq : |q| < (2 : ℚ) ^ (k + 1))
    (hb : OnGrid (k - 23) b) (h : b ≤ q) : b ≤ round q := by
  by_cases h0 : q = 0
  · subst h0
    simpa [round] using h
  · have he := binade_le q k h0 hk hq
    obtain ⟨N, hN⟩ := hb.mono (show max (ilog2 q) (-126) - 23 ≤ k - 23 by omega)
    unfold round
    rw [if_neg h0]
    simp only
    have hu : (0 : ℚ) < 2 ^ (max (ilog2 q) (-126) - 23) := by positivity
    have h1 : (N : ℚ) ≤ q / 2 ^ (max (ilog2 q) (-126) - 23) := by
      rw [le_div_iff₀ hu, ← hN]; exact h
    have h2 : (N : ℚ) ≤ ((roundEven (q / 2 ^ (max (ilog2 q) (-126) - 23)) : Int) : ℚ) := by
      exact_mod_cast le_roundEven _ _ h1
    rw [hN]
    exact mul_le_mul_of_nonneg_right h2 hu.le

end F32

namespace F32

/-- At or below the midpoint under an odd integer, rounding gives at most the even integer
before it. -/
theorem roundEven_le_pred_of_odd (x : ℚ) (n : Int) (hodd : n % 2 = 1)
    (h : x ≤ (n : ℚ) - 1 / 2) : roundEven x ≤ n - 1 := by
  have hfl := Int.floor_le x
  have h1 : ⌊x⌋ ≤ n - 1 := by
    have : ⌊x⌋ < n := Int.floor_lt.mpr (by linarith)
    omega
  unfold roundEven
  simp only
  by_cases hfn : ⌊x⌋ = n - 1
  · have hr : x - (⌊x⌋ : ℚ) ≤ 1 / 2 := by rw [hfn]; push_cast; linarith
    split_ifs <;> first | omega | (exfalso; linarith)
  · have : ⌊x⌋ + 1 ≤ n - 1 := by omega
    split_ifs <;> omega

/-- Above the midpoint under an integer, rounding gives at least that integer. -/
theorem le_roundEven_of_gt (x : ℚ) (n : Int) (h : (n : ℚ) - 1 / 2 < x) : n ≤ roundEven x := by
  have hlt := Int.lt_floor_add_one x
  have h1 : n - 1 ≤ ⌊x⌋ := by
    have : ((n - 1 : Int) : ℚ) ≤ x := by push_cast; linarith
    exact Int.le_floor.mpr this
  unfold roundEven
  simp only
  by_cases hfn : ⌊x⌋ = n - 1
  · have hr : 1 / 2 < x - (⌊x⌋ : ℚ) := by rw [hfn]; push_cast; linarith
    split_ifs <;> first | omega | (exfalso; linarith)
  · have : n ≤ ⌊x⌋ := by omega
    split_ifs <;> omega

/-- Rounding inside the binade `2 ^ k ≤ |q| < 2 ^ (k + 1)` uses the spacing
`2 ^ (k - 23)`. -/
theorem round_eq_of_binade (q : ℚ) (k : Int) (hk : -126 ≤ k) (h1 : (2 : ℚ) ^ k ≤ |q|)
    (h2 : |q| < (2 : ℚ) ^ (k + 1)) :
    round q = (roundEven (q / 2 ^ (k - 23)) : ℚ) * 2 ^ (k - 23) := by
  have h0 : q ≠ 0 := by
    intro h
    rw [h, abs_zero] at h1
    have : (0 : ℚ) < 2 ^ k := by positivity
    linarith
  have e : max (ilog2 q) (-126) = k :=
    le_antisymm (binade_le q k h0 hk h2) (le_binade q k h0 h1)
  unfold round
  rw [if_neg h0]
  simp only [e]

/-- Rounding keeps nonnegative values nonnegative. -/
theorem round_nonneg (q : ℚ) (h : 0 ≤ q) : 0 ≤ round q := by
  unfold round
  split_ifs with h0
  · exact le_rfl
  · simp only
    have hu : (0 : ℚ) < 2 ^ (max (ilog2 q) (-126) - 23) := by positivity
    have h1 : (0 : ℚ) ≤ q / 2 ^ (max (ilog2 q) (-126) - 23) := div_nonneg h hu.le
    have h2 : (0 : Int) ≤ roundEven (q / 2 ^ (max (ilog2 q) (-126) - 23)) :=
      le_roundEven _ 0 (by simpa using h1)
    have h3 : (0 : ℚ) ≤ (roundEven (q / 2 ^ (max (ilog2 q) (-126) - 23)) : ℚ) := by
      exact_mod_cast h2
    exact mul_nonneg h3 hu.le

/-- The remainder `fmod x d` has the sign of `x`. -/
theorem fmod_sign (x d : ℚ) (hd : 0 < d) :
    (0 ≤ x → 0 ≤ fmod x d) ∧ (x < 0 → fmod x d ≤ 0) := by
  constructor
  · intro hx
    have hq : 0 ≤ x / d := div_nonneg hx hd.le
    unfold fmod truncate
    rw [if_pos hq]
    have h1 := Int.floor_le (x / d)
    have : (⌊x / d⌋ : ℚ) * d ≤ x / d * d := mul_le_mul_of_nonneg_right h1 hd.le
    rw [div_mul_cancel₀ _ hd.ne.symm] at this
    linarith
  · intro hx
    have hq : ¬ 0 ≤ x / d := not_le.mpr (div_neg_of_neg_of_pos hx hd)
    unfold fmod truncate
    rw [if_neg hq]
    have h1 := Int.le_ceil (x / d)
    have : x / d * d ≤ (⌈x / d⌉ : ℚ) * d := mul_le_mul_of_nonneg_right h1 hd.le
    rw [div_mul_cancel₀ _ hd.ne.symm] at this
    linarith

/-- For `0 ≤ x < d` the remainder `fmod x d` is `x`. -/
theorem fmod_eq_self (x d : ℚ) (hx : 0 ≤ x) (hxd : x < d) : fmod x d = x := by
  have hd : 0 < d := lt_of_le_of_lt hx hxd
  have hq : 0 ≤ x / d := div_nonneg hx hd.le
  have hfl : ⌊x / d⌋ = 0 := by
    rw [Int.floor_eq_iff]
    constructor
    · simpa using hq
    · simp only [Int.cast_zero, zero_add]
      exact (div_lt_one hd).mpr hxd
  unfold fmod truncate
  rw [if_pos hq, hfl]
  simp

end F32

namespace F32

/-- Rounding a multiple of `2 ^ j` gives a multiple of `2 ^ j`. -/
theorem round_onGrid_of_onGrid (y : ℚ) (j : Int) (h : OnGrid j y) : OnGrid j (round y) := by
  by_cases h0 : y = 0
  · subst h0
    exact ⟨0, by simp [round]⟩
  · by_cases hj : j ≤ max (ilog2 y) (-126) - 23
    · exact (round_onGrid y).mono hj
    · have hlt : |y| < (2 : ℚ) ^ (max (ilog2 y) (-126) + 1) :=
        lt_of_lt_of_le (lt_zpow_ilog2 y h0)
          (zpow_le_zpow_right₀ (by norm_num) (by have := le_max_left (ilog2 y) (-126); omega))
      have hg : OnGrid (max (ilog2 y) (-126) - 23) y := h.mono (by omega)
      have h1 := round_le_of_le y y _ (le_max_right _ _) hlt hg le_rfl
      have h2 := le_round_of_le y y _ (le_max_right _ _) hlt hg le_rfl
      rw [le_antisymm h1 h2]
      exact h

/-- A rounded value of magnitude `2 ^ (k + 1)` or more is a multiple of `2 ^ (k - 22)`. -/
theorem round_onGrid_of_le_abs (q : ℚ) (k : Int) (hk : -126 ≤ k)
    (h : (2 : ℚ) ^ (k + 1) ≤ |round q|) : OnGrid (k - 22) (round q) := by
  have hpow : (2 : ℚ) ^ (k + 1) = (2 ^ 23 : ℚ) * 2 ^ (k - 22) := by
    rw [← zpow_natCast, ← zpow_add₀ (by norm_num)]
    congr 1
    push_cast
    ring
  by_cases hq : |q| < (2 : ℚ) ^ (k + 1)
  · have hb : OnGrid (k - 23) ((2 : ℚ) ^ (k + 1)) :=
      (show OnGrid (k - 22) ((2 : ℚ) ^ (k + 1)) from
        ⟨2 ^ 23, by rw [hpow]; push_cast; ring⟩).mono (by omega)
    have hbn : OnGrid (k - 23) (-(2 : ℚ) ^ (k + 1)) :=
      (show OnGrid (k - 22) (-(2 : ℚ) ^ (k + 1)) from
        ⟨-2 ^ 23, by rw [hpow]; push_cast; ring⟩).mono (by omega)
    have h1 := round_le_of_le q _ k hk hq hb (le_of_lt (lt_of_le_of_lt (le_abs_self q) hq))
    have h2 := le_round_of_le q _ k hk hq hbn
      (le_of_lt (by have := neg_abs_le q; linarith))
    rcases le_total 0 (round q) with hs | hs
    · rw [abs_of_nonneg hs] at h
      rw [le_antisymm h1 h]
      exact ⟨2 ^ 23, by rw [hpow]; push_cast; ring⟩
    · rw [abs_of_nonpos hs] at h
      have : round q = -(2 : ℚ) ^ (k + 1) := le_antisymm (by linarith) h2
      rw [this]
      exact ⟨-2 ^ 23, by rw [hpow]; push_cast; ring⟩
  · have h0 : q ≠ 0 := by
      intro h0
      rw [h0, abs_zero] at hq
      exact hq (by positivity)
    have he := le_binade q (k + 1) h0 (not_lt.mp hq)
    exact (round_onGrid q).mono (by omega)

end F32

/-- The binary32 value of `c_2pi` is a multiple of `2 ^ (-21)`. -/
theorem c_2pi_onGrid : OnGrid (-21) c_2pi :=
  ⟨13176795, by rw [c_2pi_eq, zpow_neg]; norm_num⟩

/-- The binary32 value of `c_pi` is a multiple of `2 ^ (-22)`. -/
theorem c_pi_onGrid : OnGrid (-22) c_pi :=
  ⟨13176795, by rw [c_pi_eq, zpow_neg]; norm_num⟩

/-- For a binary32 argument `euclideanMod x c_2pi` lies between 0 and the binary32 value
before `c_2pi`: what is asked of `x` is that it is a multiple of `2 ^ (-22)` when negative
and of `2 ^ (-21)` from magnitude 4 on. -/
theorem euclideanMod_two_pi_bounds (x : ℚ) (h22 : x < 0 → OnGrid (-22) x)
    (h21 : 4 ≤ |x| → OnGrid (-21) x) :
    0 ≤ euclideanMod x c_2pi ∧ euclideanMod x c_2pi ≤ c_2pi - 1 / 2097152 := by
  have hD : c_2pi = 13176795 / 2097152 := c_2pi_eq
  have hDpos : (0 : ℚ) < c_2pi := by rw [hD]; norm_num
  have e21 : (2 : ℚ) ^ (-21 : Int) = 1 / 2097152 := by rw [zpow_neg]; norm_num
  have e22 : (2 : ℚ) ^ (-22 : Int) = 1 / 4194304 := by rw [zpow_neg]; norm_num
  obtain ⟨-, hlt, t, ht⟩ := F32.fmod_spec x c_2pi hDpos
  obtain ⟨hs1, hs2⟩ := F32.fmod_sign x c_2pi hDpos
  unfold euclideanMod
  simp only
  split_ifs with hneg
  · -- the remainder is negative: the sum with the denominator is rounded
    have hx : x < 0 := by
      by_contra hc
      exact absurd (hs1 (not_lt.mp hc)) (not_le.mpr hneg)
    have hr : OnGrid (-22) (F32.fmod x c_2pi) := by
      rw [ht]
      exact (h22 hx).sub (OnGrid.int_mul t (c_2pi_onGrid.mono (by norm_num)))
    have hr2 := hr.le_neg_of_neg hneg
    rw [e22] at hr2
    have hgt : -c_2pi < F32.fmod x c_2pi := by
      obtain ⟨h1, -, -⟩ := F32.fmod_spec x c_2pi hDpos
      rcases h1 with h1 | h1
      · linarith
      · exact h1
    unfold F32.add
    constructor
    · exact F32.round_nonneg _ (by linarith)
    · by_cases h4 : F32.fmod x c_2pi + c_2pi < 4
      · have hb : OnGrid ((1 : Int) - 23) (4 : ℚ) :=
          ⟨2 ^ 24, by rw [show ((1 : Int) - 23) = -22 by norm_num, e22]; norm_num⟩
        have habs : |F32.fmod x c_2pi + c_2pi| < (2 : ℚ) ^ ((1 : Int) + 1) := by
          rw [abs_of_pos (by linarith)]
          norm_num
          exact h4
        have := F32.round_le_of_le _ 4 1 (by norm_num) habs hb h4.le
        rw [hD] at this ⊢
        linarith
      · have h4 : 4 ≤ F32.fmod x c_2pi + c_2pi := not_lt.mp h4
        have habs1 : (2 : ℚ) ^ (2 : Int) ≤ |F32.fmod x c_2pi + c_2pi| := by
          rw [abs_of_pos (by linarith)]
          norm_num
          exact h4
        have habs2 : |F32.fmod x c_2pi + c_2pi| < (2 : ℚ) ^ ((2 : Int) + 1) := by
          rw [abs_of_pos (by linarith)]
          norm_num
          rw [hD] at hneg ⊢
          linarith
        rw [F32.round_eq_of_binade _ 2 (by norm_num) habs1 habs2]
        have e : ((2 : Int) - 23) = -21 := by norm_num
        rw [e, e21]
        have hx1 : (F32.fmod x c_2pi + c_2pi) / (1 / 2097152) ≤ ((13176795 : Int) : ℚ) - 1 / 2 := by
          rw [div_le_iff₀ (by norm_num)]
          rw [hD] at hr2 ⊢
          push_cast
          linarith
        have hre := F32.roundEven_le_pred_of_odd _ 13176795 (by norm_num) hx1
        have hre2 : ((F32.roundEven ((F32.fmod x c_2pi + c_2pi) / (1 / 2097152)) : Int) : ℚ)
            ≤ 13176794 := by exact_mod_cast hre
        have hD1 : c_2pi - 1 / 2097152 = 13176794 * (1 / 2097152) := by rw [hD]; norm_num
        rw [hD1]
        exact mul_le_mul_of_nonneg_right hre2 (by norm_num)
  · -- the remainder is nonnegative and returned as it is
    have hnn : 0 ≤ F32.fmod x c_2pi := not_lt.mp hneg
    refine ⟨hnn, ?_⟩
    by_cases h4 : 4 ≤ |x|
    · have hr : OnGrid (-21) (F32.fmod x c_2pi - c_2pi) := by
        rw [ht]
        exact ((h21 h4).sub (OnGrid.int_mul t c_2pi_onGrid)).sub c_2pi_onGrid
      have := hr.le_neg_of_neg (by linarith)
      rw [e21] at this
      linarith
    · have h4 : |x| < 4 := not_le.mp h4
      rcases le_or_lt 0 x with hx | hx
      · have hx4 : x < 4 := lt_of_le_of_lt (le_abs_self x) h4
        have hxD : x < c_2pi := by rw [hD]; linarith
        rw [F32.fmod_eq_self x c_2pi hx hxD, hD]
        linarith
      · have := hs2 hx
        rw [hD] at this ⊢
        linarith

/-- The pitch stored by `fromNotchianYawPitch` lies between `-c_2pi` and the binary32 value
before zero at that scale, `-2 ^ (-21)`; converted back to degrees it lies between -360
and 0, 0 excluded. -/
theorem pitch_round_trip_bounds (p : ℚ) :
    -c_2pi ≤ F32.sub (euclideanMod (F32.add (degreesToRadians p) c_pi) c_2pi) c_2pi ∧
    F32.sub (euclideanMod (F32.add (degreesToRadians p) c_pi) c_2pi) c_2pi ≤ -(1 / 2097152) ∧
    -360 ≤ radiansToDegrees
      (F32.sub (euclideanMod (F32.add (degreesToRadians p) c_pi) c_2pi) c_2pi) ∧
    radiansToDegrees
      (F32.sub (euclideanMod (F32.add (degreesToRadians p) c_pi) c_2pi) c_2pi) < 0 := by
  have hD : c_2pi = 13176795 / 2097152 := c_2pi_eq
  have hP : c_pi = 13176795 / 4194304 := c_pi_eq
  have hC : c_degrees_per_radian = 15019745 / 262144 := c_degrees_per_radian_eq
  have e21 : (2 : ℚ) ^ (-21 : Int) = 1 / 2097152 := by rw [zpow_neg]; norm_num
  -- the argument of euclideanMod is a binary32 value
  have h22 : F32.add (degreesToRadians p) c_pi < 0 →
      OnGrid (-22) (F32.add (degreesToRadians p) c_pi) := by
    intro hx
    unfold F32.add at hx ⊢
    have hy : degreesToRadians p + c_pi < 0 := by
      by_contra hc
      exact absurd (F32.round_nonneg _ (not_lt.mp hc)) (not_le.mpr hx)
    have hrad : OnGrid (-22) (degreesToRadians p) := by
      unfold degreesToRadians F32.mul at hy ⊢
      have h2 : (2 : ℚ) ^ ((0 : Int) + 1) ≤ |F32.round (p * c_radians_per_degree)| := by
        rw [abs_of_neg (by rw [hP] at hy; linarith)]
        norm_num
        rw [hP] at hy
        linarith
      exact F32.round_onGrid_of_le_abs _ 0 (by norm_num) h2
    exact F32.round_onGrid_of_onGrid _ _ (hrad.add c_pi_onGrid)
  have h21 : 4 ≤ |F32.add (degreesToRadians p) c_pi| →
      OnGrid (-21) (F32.add (degreesToRadians p) c_pi) := by
    intro hx
    unfold F32.add at hx ⊢
    have h2 : (2 : ℚ) ^ ((1 : Int) + 1) ≤ |F32.round (degreesToRadians p + c_pi)| := by
      norm_num
      exact hx
    exact F32.round_onGrid_of_le_abs _ 1 (by norm_num) h2
  obtain ⟨hm0, hm1⟩ := euclideanMod_two_pi_bounds _ h22 h21
  set em := euclideanMod (F32.add (degreesToRadians p) c_pi) c_2pi with hem
  -- the stored pitch
  have habs : |em - c_2pi| < (2 : ℚ) ^ ((2 : Int) + 1) := by
    rw [abs_of_neg (by linarith)]
    norm_num
    rw [hD] at hm1 ⊢
    linarith
  have hlow : -c_2pi ≤ F32.sub em c_2pi := by
    have hb : OnGrid ((2 : Int) - 23) (-c_2pi) := by
      obtain ⟨n, hn⟩ := c_2pi_onGrid
      exact ⟨-n, by rw [hn]; push_cast; ring_nf⟩
    exact F32.le_round_of_le _ _ 2 (by norm_num) habs hb (by linarith)
  have hupp : F32.sub em c_2pi ≤ -(1 / 2097152) := by
    have hb : OnGrid ((2 : Int) - 23) (-(1 / 2097152) : ℚ) :=
      ⟨-1, by rw [show ((2 : Int) - 23) = -21 by norm_num, e21]; norm_num⟩
    exact F32.round_le_of_le _ _ 2 (by norm_num) habs hb (by linarith)
  set pitch := F32.sub em c_2pi with hpitch
  refine ⟨hlow, hupp, ?_, ?_⟩
  · -- not below -360
    unfold radiansToDegrees F32.mul
    rw [hC]
    have ht1 : -(13176795 / 2097152 * (15019745 / 262144) : ℚ) ≤ pitch * (15019745 / 262144) := by
      rw [hD] at hlow
      nlinarith
    have ht2 : pitch * (15019745 / 262144) < 0 := by nlinarith
    by_cases h256 : |pitch * (15019745 / 262144)| < 256
    · have hb : OnGrid ((7 : Int) - 23) (-256 : ℚ) :=
        ⟨-2 ^ 24, by rw [show ((7 : Int) - 23) = -16 by norm_num, zpow_neg]; norm_num⟩
      have habs7 : |pitch * (15019745 / 262144)| < (2 : ℚ) ^ ((7 : Int) + 1) := by
        norm_num
        exact h256
      have := F32.le_round_of_le _ (-256) 7 (by norm_num) habs7 hb
        (by rw [abs_of_neg ht2] at h256; linarith)
      linarith
    · have h256 : 256 ≤ |pitch * (15019745 / 262144)| := not_lt.mp h256
      have habs1 : (2 : ℚ) ^ (8 : Int) ≤ |pitch * (15019745 / 262144)| := by
        norm_num
        exact h256
      have habs2 : |pitch * (15019745 / 262144)| < (2 : ℚ) ^ ((8 : Int) + 1) := by
        rw [abs_of_neg ht2]
        norm_num
        linarith
      rw [F32.round_eq_of_binade _ 8 (by norm_num) habs1 habs2]
      have e15 : (2 : ℚ) ^ ((8 : Int) - 23) = 1 / 32768 := by
        rw [show ((8 : Int) - 23) = -15 by norm_num, zpow_neg]; norm_num
      rw [e15]
      have hx1 : (((-11796480 : Int)) : ℚ) - 1 / 2
          < pitch * (15019745 / 262144) / (1 / 32768) := by
        rw [lt_div_iff₀ (by norm_num)]
        push_cast
        linarith
      have hre := F32.le_roundEven_of_gt _ (-11796480) hx1
      have hre2 : (-11796480 : ℚ)
          ≤ ((F32.roundEven (pitch * (15019745 / 262144) / (1 / 32768)) : Int) : ℚ) := by
        exact_mod_cast hre
      have := mul_le_mul_of_nonneg_right hre2 (by norm_num : (0 : ℚ) ≤ 1 / 32768)
      linarith
  · -- below zero
    unfold radiansToDegrees F32.mul
    rw [hC]
    have ht : pitch * (15019745 / 262144) ≤ -(1 / 2097152) * (15019745 / 262144) := by
      nlinarith
    have herr := F32.round_sub_le (pitch * (15019745 / 262144))
    rw [abs_of_neg (by linarith : pitch * (15019745 / 262144) < 0), abs_le] at herr
    linarith [herr.2]

/-- The call of `sendMessage` is recorded. -/
theorem sendMessage_submitted (msg : OutgoingRequest) (s : Server) :
    (sendMessage msg s).submitted = s.submitted ++ [msg] := by
  unfold sendMessage socketDisconnect
  by_cases h1 : msg = OutgoingRequest.DummyDisconnectRequest <;>
    by_cases h2 : s.socket_isOpen = true <;> simp [h1, h2]

namespace F32

/-- A rounded value is at most twice the exact one plus one in magnitude. -/
theorem abs_round_le (q : ℚ) : |round q| ≤ 2 * |q| + 1 := by
  have h := round_sub_le q
  have h1 : |round q| ≤ |round q - q| + |q| := by
    have := abs_add (round q - q) q
    simpa using this
  have h2 : |q| / 2 ^ 24 ≤ |q| := div_le_self (abs_nonneg q) (by norm_num)
  have h3 : (1 : ℚ) / 2 ^ 150 ≤ 1 := by norm_num
  linarith

end F32

/-- An exact result of magnitude below `2 ^ 126` rounds to a finite value. -/
theorem ofRat_of_abs_lt (q : ℚ) (h : |q| < 2 ^ 126) :
    Binary32.ofRat q = Binary32.finite (F32.round q) := by
  have h1 := F32.abs_round_le q
  have h2 : ¬ (2 : ℚ) ^ 128 ≤ |F32.round q| := by
    have e : (2 : ℚ) ^ 128 = 4 * 2 ^ 126 := by norm_num
    rw [e]
    have e2 : (1 : ℚ) ≤ 2 ^ 126 := by norm_num
    linarith
  unfold Binary32.ofRat
  rw [if_neg h2]

/-- On a finite value below `2 ^ 128` in magnitude `degreesToRadians` is the one of finite
values. -/
theorem degreesToRadians_finite (d : ℚ) (h : |d| < 2 ^ 128) :
    Binary32.degreesToRadians (Binary32.finite d) = Binary32.finite (degreesToRadians d) := by
  refine ofRat_of_abs_lt _ ?_
  rw [c_radians_per_degree_eq, abs_mul, abs_of_pos (by norm_num : (0 : ℚ) < 9370165 / 536870912)]
  have e : (2 : ℚ) ^ 128 = 4 * 2 ^ 126 := by norm_num
  rw [e] at h
  have h0 := abs_nonneg d
  linarith

/-- The magnitude of `degreesToRadians` of a finite value below `2 ^ 128` in magnitude. -/
theorem abs_degreesToRadians_lt (d : ℚ) (h : |d| < 2 ^ 128) :
    |degreesToRadians d| < 2 ^ 124 := by
  have h1 := F32.abs_round_le (d * c_radians_per_degree)
  rw [c_radians_per_degree_eq, abs_mul,
    abs_of_pos (by norm_num : (0 : ℚ) < 9370165 / 536870912)] at h1
  unfold degreesToRadians F32.mul
  rw [c_radians_per_degree_eq]
  have e : (2 : ℚ) ^ 128 = 16 * 2 ^ 124 := by norm_num
  rw [e] at h
  have e2 : (1 : ℚ) ≤ 2 ^ 124 / 4 := by norm_num
  have h0 := abs_nonneg d
  linarith

/-- On a finite value below `2 ^ 100` in magnitude `radiansToDegrees` is the one of finite
values. -/
theorem radiansToDegrees_finite (r : ℚ) (h : |r| < 2 ^ 100) :
    Binary32.radiansToDegrees (Binary32.finite r) = Binary32.finite (radiansToDegrees r) := by
  refine ofRat_of_abs_lt _ ?_
  rw [c_degrees_per_radian_eq, abs_mul, abs_of_pos (by norm_num : (0 : ℚ) < 15019745 / 262144)]
  have e : (2 : ℚ) ^ 126 = 67108864 * 2 ^ 100 := by norm_num
  rw [e]
  have h0 := abs_nonneg r
  linarith

/-- On a finite numerator and a positive finite denominator below `2 ^ 126` `euclideanMod`
is the one of finite values. -/
theorem euclideanMod_finite (x d : ℚ) (hd : 0 < d) (hd2 : d < 2 ^ 126) :
    Binary32.euclideanMod (Binary32.finite x) (Binary32.finite d)
      = Binary32.finite (euclideanMod x d) := by
  obtain ⟨h1, -, -⟩ := F32.fmod_spec x d hd
  unfold Binary32.euclideanMod euclideanMod
  simp only [Binary32.fmod, if_neg hd.ne.symm, Binary32.ltZero]
  by_cases hneg : F32.fmod x d < 0
  · simp only [hneg, decide_True, if_true]
    refine ofRat_of_abs_lt _ ?_
    have h3 : -d < F32.fmod x d := by
      rcases h1 with h1 | h1
      · linarith
      · exact h1
    rw [abs_lt]
    constructor <;> linarith
  · simp only [hneg, decide_False, if_false, Bool.false_eq_true]

/-- The magnitude of `euclideanMod x c_2pi` is below 8. -/
theorem abs_euclideanMod_two_pi_lt (x : ℚ) : |euclideanMod x c_2pi| < 8 := by
  have hD : c_2pi = 13176795 / 2097152 := c_2pi_eq
  obtain ⟨k, hk0, hk1, hk2⟩ := euclideanMod_spec x c_2pi (by rw [hD]; norm_num)
  rw [abs_le] at hk2
  have e : c_2pi / 2 ^ 24 + 1 / 2 ^ 150 < 1 := by rw [hD]; norm_num
  rw [abs_lt]
  constructor <;> linarith [hk2.1, hk2.2]

/-- The yaw stored for a finite wire yaw below `2 ^ 128` in magnitude is finite, and is the
one computed in the arithmetic of finite values. -/
theorem fromNotchianYawPitch_yaw_finite (P : EntityPosition) (y : ℚ) (pitch : Binary32)
    (hy : |y| < 2 ^ 128) :
    (fromNotchianYawPitch P (Binary32.finite y) pitch).yaw
      = Binary32.finite (euclideanMod (degreesToRadians y) c_2pi) := by
  show Binary32.euclideanMod (Binary32.degreesToRadians (Binary32.finite y))
    (Binary32.finite c_2pi) = _
  rw [degreesToRadians_finite y hy,
    euclideanMod_finite _ _ (by rw [c_2pi_eq]; norm_num) (by rw [c_2pi_eq]; norm_num)]

/-- The pitch stored for a finite wire pitch below `2 ^ 128` in magnitude is finite, and is
the one computed in the arithmetic of finite values. -/
theorem fromNotchianYawPitch_pitch_finite (P : EntityPosition) (yaw : Binary32) (p : ℚ)
    (hp : |p| < 2 ^ 128) :
    (fromNotchianYawPitch P yaw (Binary32.finite p)).pitch
      = Binary32.finite
          (F32.sub (euclideanMod (F32.add (degreesToRadians p) c_pi) c_2pi) c_2pi) := by
  show Binary32.sub (Binary32.euclideanMod
    (Binary32.add (Binary32.degreesToRadians (Binary32.finite p)) (Binary32.finite c_pi))
    (Binary32.finite c_2pi)) (Binary32.finite c_2pi) = _
  have h1 := abs_degreesToRadians_lt p hp
  have hadd : Binary32.add (Binary32.finite (degreesToRadians p)) (Binary32.finite c_pi)
      = Binary32.finite (F32.add (degreesToRadians p) c_pi) := by
    refine ofRat_of_abs_lt _ ?_
    have e : (2 : ℚ) ^ 126 = 4 * 2 ^ 124 := by norm_num
    have e2 : (4 : ℚ) ≤ 2 ^ 124 := by norm_num
    rw [c_pi_eq, e]
    rw [abs_lt] at h1 ⊢
    constructor <;> linarith [h1.1, h1.2]
  have h2 := abs_euclideanMod_two_pi_lt (F32.add (degreesToRadians p) c_pi)
  have hsub : Binary32.sub
      (Binary32.finite (euclideanMod (F32.add (degreesToRadians p) c_pi) c_2pi))
      (Binary32.finite c_2pi)
      = Binary32.finite
          (F32.sub (euclideanMod (F32.add (degreesToRadians p) c_pi) c_2pi) c_2pi) := by
    refine ofRat_of_abs_lt _ ?_
    have e2 : (16 : ℚ) ≤ 2 ^ 126 := by norm_num
    have hD : c_2pi = 13176795 / 2097152 := c_2pi_eq
    rw [abs_lt] at h2 ⊢
    constructor <;> linarith [h2.1, h2.2]
  rw [degreesToRadians_finite p hp, hadd,
    euclideanMod_finite _ _ (by rw [c_2pi_eq]; norm_num) (by rw [c_2pi_eq]; norm_num), hsub]

/-- The yaw stored for a wire yaw that is an infinity or a NaN is a NaN, and so is the yaw
sent back. -/
theorem fromNotchianYawPitch_yaw_nan (P : EntityPosition) (yaw pitch : Binary32)
    (h : ∀ v : ℚ, yaw ≠ Binary32.finite v) :
    (fromNotchianYawPitch P yaw pitch).yaw = Binary32.nan ∧
    (toNotchianYawPitch (fromNotchianYawPitch P yaw pitch)).1 = Binary32.nan := by
  have hc : c_radians_per_degree ≠ 0 := by rw [c_radians_per_degree_eq]; norm_num
  have h1 : (fromNotchianYawPitch P yaw pitch).yaw = Binary32.nan := by
    show Binary32.euclideanMod (Binary32.degreesToRadians yaw) (Binary32.finite c_2pi) = _
    cases yaw with
    | finite v => exact absurd rfl (h v)
    | infinite s =>
      simp [Binary32.degreesToRadians, Binary32.mul, hc, Binary32.euclideanMod, Binary32.fmod,
        Binary32.ltZero]
    | nan =>
      simp [Binary32.degreesToRadians, Binary32.mul, Binary32.euclideanMod, Binary32.fmod,
        Binary32.ltZero]
  refine ⟨h1, ?_⟩
  show Binary32.radiansToDegrees (fromNotchianYawPitch P yaw pitch).yaw = _
  rw [h1]
  rfl

/-- The pitch stored for a wire pitch that is an infinity or a NaN is a NaN, and so is the
pitch sent back. -/
theorem fromNotchianYawPitch_pitch_nan (P : EntityPosition) (yaw pitch : Binary32)
    (h : ∀ v : ℚ, pitch ≠ Binary32.finite v) :
    (fromNotchianYawPitch P yaw pitch).pitch = Binary32.nan ∧
    (toNotchianYawPitch (fromNotchianYawPitch P yaw pitch)).2 = Binary32.nan := by
  have hc : c_radians_per_degree ≠ 0 := by rw [c_radians_per_degree_eq]; norm_num
  have h1 : (fromNotchianYawPitch P yaw pitch).pitch = Binary32.nan := by
    show Binary32.sub (Binary32.euclideanMod
      (Binary32.add (Binary32.degreesToRadians pitch) (Binary32.finite c_pi))
      (Binary32.finite c_2pi)) (Binary32.finite c_2pi) = _
    cases pitch with
    | finite v => exact absurd rfl (h v)
    | infinite s =>
      simp [Binary32.degreesToRadians, Binary32.mul, hc, Binary32.add, Binary32.euclideanMod,
        Binary32.fmod, Binary32.ltZero, Binary32.sub]
    | nan =>
      simp [Binary32.degreesToRadians, Binary32.mul, Binary32.add, Binary32.euclideanMod,
        Binary32.fmod, Binary32.ltZero, Binary32.sub]
  refine ⟨h1, ?_⟩
  show Binary32.radiansToDegrees (fromNotchianYawPitch P yaw pitch).pitch = _
  rw [h1]
  rfl

/-! ## The claims -/

/-- C1: from a state with login state `Disconnected`, `socketConnect`, then `handleConnected`,
then a Handshake response carrying the `AuthenticationNotRequired` sentinel succeed and leave
the login state `Connecting`, `WaitingForHandshakeResponse` and
`WaitingForPlayerPositionAndLook` in turn; the messages given to `sendMessage` on the way
are exactly the Handshake request with the user name and then the Login request with user
name and password; the notifications emitted are exactly the four states assigned, in the
order of assignment; and every `changeLoginState` assigns and emits the same state. -/
theorem C1_login_sequence (env : Externals) (s : Server)
    (h : s.m_login_state = LoginStatus.Disconnected) :
    s.m_login_state = LoginStatus.Disconnected ∧
    (socketConnect s).m_login_state = LoginStatus.Connecting ∧
    (handleConnected (socketConnect s)).m_login_state
      = LoginStatus.WaitingForHandshakeResponse ∧
    (∃ s3, processIncomingMessage env (IncomingResponse.Handshake env.AuthenticationNotRequired)
          (handleConnected (socketConnect s)) = Outcome.ok s3 ∧
      s3.m_login_state = LoginStatus.WaitingForPlayerPositionAndLook ∧
      s3.submitted = s.submitted ++
        [OutgoingRequest.HandshakeRequest s.m_connection_info.userName,
         OutgoingRequest.LoginRequest s.m_connection_info.userName s.m_connection_info.password] ∧
      s3.emitted = s.emitted ++
        [Signal.loginStatusUpdated LoginStatus.Connecting,
         Signal.loginStatusUpdated LoginStatus.WaitingForHandshakeResponse,
         Signal.loginStatusUpdated LoginStatus.WaitingForLoginResponse,
         Signal.loginStatusUpdated LoginStatus.WaitingForPlayerPositionAndLook]) ∧
    (∀ (state : LoginStatus) (t : Server),
      (changeLoginState state t).m_login_state = state ∧
      (changeLoginState state t).emitted = t.emitted ++ [Signal.loginStatusUpdated state]) := by
  refine ⟨h, ?_, ?_, ?_, fun state t => ⟨rfl, rfl⟩⟩
  · simp [socketConnect, changeLoginState]
  · simp only [handleConnected, sendMessage, socketConnect, changeLoginState, socketDisconnect]
    split_ifs <;> simp
  · simp only [processIncomingMessage, handleConnected, sendMessage, socketConnect,
      changeLoginState, socketDisconnect]
    split_ifs <;> simp_all

/-- Witness of C1 on a freshly constructed server. -/
theorem C1_login_sequence_witness :
    (processIncomingMessage exampleEnv (IncomingResponse.Handshake "-")
        (handleConnected (socketConnect exampleServer))
      = Outcome.ok
          { exampleServer with
            m_parser_installed := true
            m_login_state := LoginStatus.WaitingForPlayerPositionAndLook
            emitted := [Signal.loginStatusUpdated LoginStatus.Connecting,
              Signal.loginStatusUpdated LoginStatus.WaitingForHandshakeResponse,
              Signal.loginStatusUpdated LoginStatus.WaitingForLoginResponse,
              Signal.loginStatusUpdated LoginStatus.WaitingForPlayerPositionAndLook]
            socket_calls := [SocketCall.connectToHost "localhost" 25565]
            submitted := [OutgoingRequest.HandshakeRequest "steve",
              OutgoingRequest.LoginRequest "steve" "secret"] }) ∧
    (socketConnect exampleServer).m_login_state = LoginStatus.Connecting :=
  ⟨by decide, (C1_login_sequence exampleEnv exampleServer rfl).2.1⟩

/-- C2: processing a Handshake response fails an assertion exactly when the login state is
not `WaitingForHandshakeResponse` or the connection hash is not the
`AuthenticationNotRequired` sentinel; it succeeds otherwise; and at the failure the state is
the state before the call: nothing was given to `sendMessage`, nothing was written, and the
login state is unchanged. -/
theorem C2_handshake_assertions (env : Externals) (connectionHash : String) (s : Server) :
    ((∃ s1 failure, processIncomingMessage env (IncomingResponse.Handshake connectionHash) s
        = Outcome.aborted s1 failure) ↔
      (s.m_login_state ≠ LoginStatus.WaitingForHandshakeResponse ∨
        connectionHash ≠ env.AuthenticationNotRequired)) ∧
    ((∃ s1, processIncomingMessage env (IncomingResponse.Handshake connectionHash) s
        = Outcome.ok s1) ↔
      (s.m_login_state = LoginStatus.WaitingForHandshakeResponse ∧
        connectionHash = env.AuthenticationNotRequired)) ∧
    (∀ s1 failure, processIncomingMessage env (IncomingResponse.Handshake connectionHash) s
        = Outcome.aborted s1 failure →
      s1 = s ∧ s1.submitted = s.submitted ∧ s1.socket_calls = s.socket_calls ∧
        s1.m_login_state = s.m_login_state) := by
  simp only [processIncomingMessage]
  split_ifs with h1 h2
  · refine ⟨by simp [h1], by simp [h1], ?_⟩
    intro s1 failure hs
    simp only [Outcome.aborted.injEq] at hs
    obtain ⟨rfl, -⟩ := hs
    simp
  · refine ⟨by simp [h2], by simp [h2], ?_⟩
    intro s1 failure hs
    simp only [Outcome.aborted.injEq] at hs
    obtain ⟨rfl, -⟩ := hs
    simp
  · simp only [ne_eq, not_not] at h1 h2
    simp [h1, h2]

/-- C3 (the code at the failing input): a PlayerPositionAndLook response with wire
coordinates `x = 1, y = 2, z = 3` stores `x = 2, y = -1, z = 3`: the stored `x` is the wire
`y` and the stored `z` is the wire `z`, where the axis remap of `fromNotchianXyz` gives
`x = 3, y = -1, z = 2`. -/
theorem C3_position_axes_swapped :
    ∃ s1, processIncomingMessage exampleEnv
        (IncomingResponse.PlayerPositionAndLook 1 2 3 0 (Binary32.finite 0) (Binary32.finite 0)
          true) exampleServer = Outcome.ok s1 ∧
      (s1.player_position.x, s1.player_position.y, s1.player_position.z) = (2, -1, 3) ∧
      ((fromNotchianXyz examplePosition 1 2 3).x, (fromNotchianXyz examplePosition 1 2 3).y,
        (fromNotchianXyz examplePosition 1 2 3).z) = (3, -1, 2) ∧
      fromNotchianXyzCoord 1 2 3 = { x := 3, y := -1, z := 2 } := by
  refine ⟨_, rfl, ?_, ?_, ?_⟩ <;> decide

/-- C4 (counterexample): the MapChunk response with wire origin `(-2 ^ 31, 0, -32)`,
extents-minus-one `(1, 1, 1)` and the example payload is decoded, and the chunk emitted
has origin `(-32, -2 ^ 31, 0)`: its `y` is the wire `x` itself, not its negative `2 ^ 31`,
which is not an `int`. -/
theorem C4_origin_at_least_int :
    ∃ chunk : Chunk,
      processIncomingMessage exampleEnv
          (IncomingResponse.MapChunk (-2147483648) 0 (-32) 1 1 1 exampleChunkData)
          exampleReadyServer
        = Outcome.ok { exampleReadyServer with emitted := [Signal.mapChunkUpdated chunk] } ∧
      chunk.position = { x := -32, y := -2147483648, z := 0 } ∧
      chunk.position ≠ { x := -32, y := -(-2147483648), z := 0 } := by
  refine ⟨{ exampleChunk with position := { x := -32, y := -2147483648, z := 0 } }, ?_, ?_, ?_⟩
    <;> decide

/-- C4 (amended): for a MapChunk response whose wire origin `x` is above `-2 ^ 31` (and whose
`size_x_minus_one` is an `int`, so not below `-2 ^ 31`) and whose decompressed buffer holds at
least `sx * sy * sz` bytes, where `(sx, sy, sz)` are the three extents-minus-one plus one, the
message is processed without failure and a `mapChunkUpdated` signal carries the decoded
chunk; the chunk has position `(z, -x, y)` for the wire origin `(x, y, z)` and size
`(sz, -sx, sy)`; for every wire relative position `(rx, ry, rz)` inside the extents the block
type held at `(rz, -rx, ry)` is the decompressed byte at index `(rx * sz + rz) * sy + ry`; and
every index read is below `sx * sy * sz`. -/
theorem C4_map_chunk_decoding (env : Externals) (s : Server)
    (x y z size_x_minus_one size_y_minus_one size_z_minus_one : Int)
    (compressed_data : List Int)
    (hx : -2147483648 < x) (hmx : -2147483648 ≤ size_x_minus_one)
    (hlen : (size_x_minus_one + 1) * (size_y_minus_one + 1) * (size_z_minus_one + 1)
      ≤ ((env.qUncompress ([0, 0, 0, 0] ++ compressed_data)).length : Int)) :
    ∃ st, decodeMapChunk (env.qUncompress ([0, 0, 0, 0] ++ compressed_data)) x y z
        size_x_minus_one size_y_minus_one size_z_minus_one = some st ∧
      processIncomingMessage env
        (IncomingResponse.MapChunk x y z size_x_minus_one size_y_minus_one size_z_minus_one
          compressed_data) s
        = Outcome.ok { s with emitted := s.emitted ++ [Signal.mapChunkUpdated st.chunk] } ∧
      st.chunk.position = { x := z, y := -x, z := y } ∧
      st.chunk.size = { x := size_z_minus_one + 1, y := -(size_x_minus_one + 1),
                        z := size_y_minus_one + 1 } ∧
      (∀ rx ry rz : Int, 0 ≤ rx → rx < size_x_minus_one + 1 → 0 ≤ ry →
        ry < size_y_minus_one + 1 → 0 ≤ rz → rz < size_z_minus_one + 1 →
        ∃ block_type : Int,
          (env.qUncompress ([0, 0, 0, 0] ++ compressed_data))[((rx * (size_z_minus_one + 1)
            + rz) * (size_y_minus_one + 1) + ry).toNat]? = some block_type ∧
          st.chunk.blockType { x := rz, y := -rx, z := ry } = some block_type) ∧
      (∀ i ∈ st.reads, (i : Int)
        < (size_x_minus_one + 1) * (size_y_minus_one + 1) * (size_z_minus_one + 1)) := by
  set decompressed := env.qUncompress ([0, 0, 0, 0] ++ compressed_data) with hdec
  set sx := size_x_minus_one + 1 with hsx
  set sy := size_y_minus_one + 1 with hsy
  set sz := size_z_minus_one + 1 with hsz
  have hlenN := toNat_product_le sx sy sz _ hlen
  obtain ⟨st, h1, h2, h3, h4, h5, h6⟩ := decodeBlocks_spec decompressed sx sy sz
    (Chunk.new (fromNotchianXyzCoord x y z) (fromNotchianXyzCoord sx sy sz)) hlenN
  have hdm : decodeMapChunk decompressed x y z size_x_minus_one size_y_minus_one
      size_z_minus_one = some st := h1
  have hpos : fromNotchianXyzCoord x y z = { x := z, y := -x, z := y } := by
    simp only [fromNotchianXyzCoord, intNeg]
    rw [if_neg (by omega)]
  have hsize : fromNotchianXyzCoord sx sy sz = { x := sz, y := -sx, z := sy } := by
    simp only [fromNotchianXyzCoord, intNeg]
    rw [if_neg (by omega)]
  refine ⟨st, hdm, ?_, h4.trans hpos, h5.trans hsize, ?_, ?_⟩
  · simp only [processIncomingMessage, ← hdec, hdm]
  · intro rx ry rz hx0 hx1 hy0 hy1 hz0 hz1
    obtain ⟨X, rfl⟩ := Int.eq_ofNat_of_zero_le hx0
    obtain ⟨j, rfl⟩ := Int.eq_ofNat_of_zero_le hy0
    obtain ⟨Zc, rfl⟩ := Int.eq_ofNat_of_zero_le hz0
    have hX : X < sx.toNat := by omega
    have hj : j < sy.toNat := by omega
    have hZ : Zc < sz.toNat := by omega
    have hidx := index_lt_total _ _ _ X Zc j hX hZ hj
    have e : (((X : Int) * sz + (Zc : Int)) * sy + (j : Int)).toNat
        = (X * sz.toNat + Zc) * sy.toNat + j := by
      have e1 : sz = (sz.toNat : Int) := (Int.toNat_of_nonneg (by omega)).symm
      have e2 : sy = (sy.toNat : Int) := (Int.toNat_of_nonneg (by omega)).symm
      rw [e1, e2]
      have : ((X : Int) * (sz.toNat : Int) + (Zc : Int)) * (sy.toNat : Int) + (j : Int)
          = (((X * sz.toNat + Zc) * sy.toNat + j : Nat) : Int) := by push_cast; ring
      rw [Int.toNat_ofNat, Int.toNat_ofNat, this, Int.toNat_ofNat]
    have hcell : ({ x := (Zc : Int), y := -(X : Int), z := (j : Int) } : Coord)
        = fromNotchianXyzCoord (X : Int) (j : Int) (Zc : Int) := by
      simp only [fromNotchianXyzCoord, intNeg_natCast]
    refine ⟨decompressed.getD ((X * sz.toNat + Zc) * sy.toNat + j) 0, ?_, ?_⟩
    · rw [e, List.getD_eq_getElem?_getD, List.getElem?_eq_getElem (lt_of_lt_of_le hidx hlenN)]
      rfl
    · rw [hcell]
      unfold Chunk.blockType
      rw [h6]
      simp only [Chunk.new, List.append_nil]
      have hfun := find_functional
        ((List.range (sx.toNat * sz.toNat * sy.toNat)).map (fun i =>
          (cellOfIndex sy.toNat sz.toNat i, decompressed.getD i 0))).reverse
        (fun c => decompressed.getD (((-c.y).toNat * sz.toNat + c.x.toNat) * sy.toNat
          + c.z.toNat) 0)
        (fromNotchianXyzCoord (X : Int) (j : Int) (Zc : Int)) ?_ ?_
      · rw [hfun]
        simp [fromNotchianXyzCoord, intNeg_natCast]
      · intro w hw
        simp only [List.mem_reverse, List.mem_map, List.mem_range] at hw
        obtain ⟨i, -, rfl⟩ := hw
        simp only [cellOfIndex, fromNotchianXyzCoord, intNeg_natCast, neg_neg, Int.toNat_ofNat]
        congr 1
        have a1 := Nat.div_add_mod i sy.toNat
        have a2 := Nat.div_add_mod (i / sy.toNat) sz.toNat
        rw [Nat.mul_comm] at a2
        rw [a2, Nat.mul_comm]
        exact a1.symm
      · refine ⟨(cellOfIndex sy.toNat sz.toNat ((X * sz.toNat + Zc) * sy.toNat + j),
          decompressed.getD ((X * sz.toNat + Zc) * sy.toNat + j) 0), ?_, ?_⟩
        · simp only [List.mem_reverse, List.mem_map, List.mem_range]
          exact ⟨_, hidx, rfl⟩
        · exact cellOfIndex_index _ _ X Zc j hZ hj
  · intro i hi
    rw [h3, List.mem_range] at hi
    have hpos : 0 < sx.toNat * sz.toNat * sy.toNat := by omega
    have hx : 0 < sx.toNat := by
      rcases Nat.eq_zero_or_pos sx.toNat with h | h
      · rw [h] at hpos; simp at hpos
      · exact h
    have hz : 0 < sz.toNat := by
      rcases Nat.eq_zero_or_pos sz.toNat with h | h
      · rw [h] at hpos; simp at hpos
      · exact h
    have hy : 0 < sy.toNat := by
      rcases Nat.eq_zero_or_pos sy.toNat with h | h
      · rw [h] at hpos; simp at hpos
      · exact h
    have e : ((sx.toNat * sz.toNat * sy.toNat : Nat) : Int) = sx * sy * sz := by
      push_cast
      rw [Int.toNat_of_nonneg (by omega), Int.toNat_of_nonneg (by omega),
        Int.toNat_of_nonneg (by omega)]
      ring
    rw [← e]
    exact_mod_cast hi

/-- Witness of C4: the 2 x 2 x 2 chunk with extents-minus-one `(1, 1, 1)` at wire origin
`(16, 0, -32)`.  The eight block types land at the remapped coordinates of the hand-made
table, in the order they are read, and the two trailing bytes are not read. -/
theorem C4_map_chunk_decoding_witness :
    ((-2147483648 : Int) < 16) ∧ ((-2147483648 : Int) ≤ 1) ∧
    ((1 + 1 : Int) * (1 + 1) * (1 + 1)
      ≤ ((exampleEnv.qUncompress ([0, 0, 0, 0] ++ exampleChunkData)).length : Int)) ∧
    (∃ st, decodeMapChunk (exampleEnv.qUncompress ([0, 0, 0, 0] ++ exampleChunkData))
        16 0 (-32) 1 1 1 = some st ∧
      st.chunk.position = { x := -32, y := -16, z := 0 } ∧
      st.chunk.size = { x := 2, y := -2, z := 2 } ∧
      st.chunk.blockType { x := 1, y := -1, z := 0 } = some 16) ∧
    (decodeMapChunk (exampleEnv.qUncompress ([0, 0, 0, 0] ++ exampleChunkData))
        16 0 (-32) 1 1 1).map (fun st => (st.chunk.writes.reverse, st.reads))
      = some ([({ x := 0, y := 0, z := 0 }, 10), ({ x := 0, y := 0, z := 1 }, 11),
               ({ x := 1, y := 0, z := 0 }, 12), ({ x := 1, y := 0, z := 1 }, 13),
               ({ x := 0, y := -1, z := 0 }, 14), ({ x := 0, y := -1, z := 1 }, 15),
               ({ x := 1, y := -1, z := 0 }, 16), ({ x := 1, y := -1, z := 1 }, 17)],
              [0, 1, 2, 3, 4, 5, 6, 7]) := by
  refine ⟨by decide, by decide, by decide, ?_, by decide⟩
  obtain ⟨st, h1, -, h3, h4, h5, -⟩ :=
    C4_map_chunk_decoding exampleEnv exampleServer 16 0 (-32) 1 1 1 exampleChunkData
      (by decide) (by decide) (by decide)
  refine ⟨st, h1, h3, h4, ?_⟩
  obtain ⟨block_type, hb1, hb2⟩ := h5 1 0 1 (by decide) (by decide) (by decide) (by decide)
    (by decide) (by decide)
  have e : (exampleEnv.qUncompress ([0, 0, 0, 0] ++ exampleChunkData))[((1 * ((1 : Int) + 1)
      + 1) * (1 + 1) + 0).toNat]? = some 16 := by decide
  rw [e] at hb1
  have e2 : ({ x := 1, y := -1, z := 0 } : Coord) = { x := 1, y := -1, z := 0 } := rfl
  rw [e2, hb2, ← hb1]

/-- C5: for every position, `toNotchianXyz` followed by `fromNotchianXyz` on the resulting
wire `x, y, z` gives back the position exactly (whatever position the result is written
over: only its `x, y, z` are replaced). -/
theorem C5_axis_remap_round_trip (P destination : EntityPosition) :
    (fromNotchianXyz destination (toNotchianXyz P).1 (toNotchianXyz P).2.1
        (toNotchianXyz P).2.2).x = P.x ∧
    (fromNotchianXyz destination (toNotchianXyz P).1 (toNotchianXyz P).2.1
        (toNotchianXyz P).2.2).y = P.y ∧
    (fromNotchianXyz destination (toNotchianXyz P).1 (toNotchianXyz P).2.1
        (toNotchianXyz P).2.2).z = P.z ∧
    fromNotchianXyz P (toNotchianXyz P).1 (toNotchianXyz P).2.1 (toNotchianXyz P).2.2 = P := by
  simp [fromNotchianXyz, toNotchianXyz]

/-- C6 (the code at the failing input): the numerator `-2 ^ (-100)` and the denominator
`c_2pi` are both binary32 values, the denominator is positive, and `euclideanMod` returns
the denominator itself: the remainder `-2 ^ (-100)` is negative, and the `float` sum of it
and `c_2pi` rounds to `c_2pi`.  The same happens with denominator 1, and at the call in
`fromNotchianYawPitch` for a wire yaw of `-2 ^ (-100)` degrees.  The last three lines say
the same of the function on every `float`. -/
theorem C6_euclideanMod_returns_denominator :
    F32.round (-(1 / 2 ^ 100)) = -(1 / 2 ^ 100) ∧
    F32.round c_2pi = c_2pi ∧
    c_2pi = 13176795 / 2097152 ∧
    0 < c_2pi ∧
    F32.fmod (-(1 / 2 ^ 100)) c_2pi = -(1 / 2 ^ 100) ∧
    euclideanMod (-(1 / 2 ^ 100)) c_2pi = c_2pi ∧
    ¬ euclideanMod (-(1 / 2 ^ 100)) c_2pi < c_2pi ∧
    euclideanMod (-(1 / 2 ^ 100)) 1 = 1 ∧
    euclideanMod (degreesToRadians (-(1 / 2 ^ 100))) c_2pi = c_2pi ∧
    Binary32.euclideanMod (Binary32.finite (-(1 / 2 ^ 100))) (Binary32.finite c_2pi)
      = Binary32.finite c_2pi ∧
    Binary32.euclideanMod (Binary32.finite (-(1 / 2 ^ 100))) (Binary32.finite 1)
      = Binary32.finite 1 ∧
    Binary32.euclideanMod (Binary32.degreesToRadians (Binary32.finite (-(1 / 2 ^ 100))))
      (Binary32.finite c_2pi) = Binary32.finite c_2pi := by
  decide!

/-- C7 (the code at the failing input): for the wire yaw `-2 ^ (-100)` degrees (a binary32
value) and wire pitch 0, `fromNotchianYawPitch` stores the yaw `c_2pi`, which is not below
`c_2pi`; the stored pitch is `-c_pi`. -/
theorem C7_yaw_reaches_two_pi :
    F32.round (-(1 / 2 ^ 100)) = -(1 / 2 ^ 100) ∧
    degreesToRadians (-(1 / 2 ^ 100)) = -(9370165 / 2 ^ 129) ∧
    (fromNotchianYawPitch examplePosition (Binary32.finite (-(1 / 2 ^ 100)))
      (Binary32.finite 0)).yaw = Binary32.finite c_2pi ∧
    (∀ v : ℚ, (fromNotchianYawPitch examplePosition (Binary32.finite (-(1 / 2 ^ 100)))
      (Binary32.finite 0)).yaw = Binary32.finite v → ¬ v < c_2pi) ∧
    (fromNotchianYawPitch examplePosition (Binary32.finite (-(1 / 2 ^ 100)))
      (Binary32.finite 0)).pitch = Binary32.finite (-c_pi) := by
  have h : (fromNotchianYawPitch examplePosition (Binary32.finite (-(1 / 2 ^ 100)))
      (Binary32.finite 0)).yaw = Binary32.finite c_2pi := by decide!
  refine ⟨by decide!, by decide!, h, ?_, by decide!⟩
  intro v hv
  rw [h, Binary32.finite.injEq] at hv
  rw [← hv]
  exact lt_irrefl _

/-- C8 (counterexample): the wire yaw of 30 degrees comes back from `fromNotchianYawPitch`
and `toNotchianYawPitch` as `30 + 2 ^ (-19)` degrees, which differs from 30 by no multiple
of 360.  A wire yaw that is an infinity or a NaN comes back as a NaN. -/
theorem C8_yaw_round_trip_not_exact :
    F32.round 30 = 30 ∧
    (toNotchianYawPitch (fromNotchianYawPitch examplePosition (Binary32.finite 30)
      (Binary32.finite 0))).1 = Binary32.finite (30 + 1 / 2 ^ 19) ∧
    (∀ back : ℚ, (toNotchianYawPitch (fromNotchianYawPitch examplePosition (Binary32.finite 30)
      (Binary32.finite 0))).1 = Binary32.finite back →
        ¬ ∃ k : ℤ, back - 30 = 360 * (k : ℚ)) ∧
    (toNotchianYawPitch (fromNotchianYawPitch examplePosition (Binary32.infinite false)
      (Binary32.finite 0))).1 = Binary32.nan ∧
    (toNotchianYawPitch (fromNotchianYawPitch examplePosition (Binary32.infinite true)
      (Binary32.finite 0))).1 = Binary32.nan ∧
    (toNotchianYawPitch (fromNotchianYawPitch examplePosition Binary32.nan
      (Binary32.finite 0))).1 = Binary32.nan := by
  have h : (toNotchianYawPitch (fromNotchianYawPitch examplePosition (Binary32.finite 30)
      (Binary32.finite 0))).1 = Binary32.finite (30 + 1 / 2 ^ 19) := by decide!
  refine ⟨by decide!, h, ?_, by decide!, by decide!, by decide!⟩
  rintro back hback ⟨k, hk⟩
  rw [h, Binary32.finite.injEq] at hback
  rw [← hback] at hk
  have h1 : (0 : ℚ) < (k : ℚ) := by
    have : (0 : ℚ) < 360 * (k : ℚ) := by rw [← hk]; norm_num
    linarith
  have h2 : (k : ℚ) < 1 := by
    have : 360 * (k : ℚ) < 360 := by rw [← hk]; norm_num
    linarith
  have h3 : (0 : ℤ) < k := by exact_mod_cast h1
  have h4 : k < 1 := by exact_mod_cast h2
  omega

/-- C8 (amended): for every finite wire yaw `y` in degrees (a value below `2 ^ 128` in
magnitude, as every finite `float` is), the value that comes back from
`fromNotchianYawPitch` followed by `toNotchianYawPitch` is finite and within
`|y| / 2 ^ 23 + 1 / 2 ^ 14` degrees of `y` minus a whole number of turns of 360 degrees. -/
theorem C8_yaw_round_trip (P : EntityPosition) (y : ℚ) (pitch : Binary32)
    (hy : |y| < 2 ^ 128) :
    ∃ back : ℚ,
      (toNotchianYawPitch (fromNotchianYawPitch P (Binary32.finite y) pitch)).1
        = Binary32.finite back ∧
      ∃ k : ℤ, |back - (y - 360 * (k : ℚ))| ≤ |y| / 2 ^ 23 + 1 / 2 ^ 14 := by
  have hfin : (toNotchianYawPitch (fromNotchianYawPitch P (Binary32.finite y) pitch)).1
      = Binary32.finite (radiansToDegrees (euclideanMod (degreesToRadians y) c_2pi)) := by
    show Binary32.radiansToDegrees (fromNotchianYawPitch P (Binary32.finite y) pitch).yaw = _
    rw [fromNotchianYawPitch_yaw_finite P y pitch hy]
    refine radiansToDegrees_finite _ (lt_trans (abs_euclideanMod_two_pi_lt _) (by norm_num))
  refine ⟨_, hfin, ?_⟩
  simp only [radiansToDegrees, degreesToRadians,
    F32.mul, c_2pi_eq, c_degrees_per_radian_eq, c_radians_per_degree_eq]
  set rad := F32.round (y * (9370165 / 536870912)) with hrad
  obtain ⟨k, hk0, hk1, hk2⟩ := euclideanMod_spec rad (13176795 / 2097152) (by norm_num)
  set yaw := euclideanMod rad (13176795 / 2097152) with hyaw
  have h0 := F32.round_sub_le (y * (9370165 / 536870912))
  rw [← hrad, abs_mul, abs_of_pos (by norm_num : (0 : ℚ) < 9370165 / 536870912)] at h0
  have h2 := F32.round_sub_le (yaw * (15019745 / 262144))
  rw [abs_mul, abs_of_pos (by norm_num : (0 : ℚ) < 15019745 / 262144)] at h2
  set back := F32.round (yaw * (15019745 / 262144)) with hback
  have hy0 : 0 ≤ |y| := abs_nonneg y
  have hy1 := le_abs_self y
  have hy2 := neg_abs_le y
  rw [abs_le] at h0 hk2 h2
  have hyaw_abs : |yaw| ≤ 13176795 / 2097152 + (13176795 / 2097152 / 2 ^ 24 + 1 / 2 ^ 150) := by
    rw [abs_le]; constructor <;> linarith [hk2.1, hk2.2]
  have hyaw_nn : 0 ≤ |yaw| := abs_nonneg yaw
  refine ⟨k, ?_⟩
  rw [abs_le]
  constructor <;> linarith [h0.1, h0.2, hk2.1, hk2.2, h2.1, h2.2]

/-- Witness of C8: the wire yaw of 30 degrees. -/
theorem C8_yaw_round_trip_witness :
    |(30 : ℚ)| < 2 ^ 128 ∧
    ∃ back : ℚ,
      (toNotchianYawPitch (fromNotchianYawPitch examplePosition (Binary32.finite 30)
        (Binary32.finite 0))).1 = Binary32.finite back ∧
      ∃ k : ℤ, |back - (30 - 360 * (k : ℚ))| ≤ |(30 : ℚ)| / 2 ^ 23 + 1 / 2 ^ 14 :=
  ⟨by norm_num [abs_of_pos],
    C8_yaw_round_trip examplePosition 30 (Binary32.finite 0) (by norm_num [abs_of_pos])⟩

/-- C9: a PlayerPositionAndLook response is always processed without failure; in login state
`WaitingForPlayerPositionAndLook` the login state becomes `Success`, a notification of it is
emitted and the position timer is set to a running timer of interval 200; in every other
login state the login state, the timer and the notifications are unchanged; in all cases
the stored stance and on_ground are those of the response. -/
theorem C9_first_position (env : Externals) (x y z stance : ℚ) (yaw pitch : Binary32)
    (on_ground : Bool) (s : Server) :
    ∃ s1, processIncomingMessage env
        (IncomingResponse.PlayerPositionAndLook x y z stance yaw pitch on_ground) s
        = Outcome.ok s1 ∧
      (s.m_login_state = LoginStatus.WaitingForPlayerPositionAndLook →
        s1.m_login_state = LoginStatus.Success ∧
        s1.m_position_update_timer = some { interval := 200, active := true } ∧
        s1.emitted = s.emitted ++ [Signal.loginStatusUpdated LoginStatus.Success]) ∧
      (s.m_login_state ≠ LoginStatus.WaitingForPlayerPositionAndLook →
        s1.m_login_state = s.m_login_state ∧
        s1.m_position_update_timer = s.m_position_update_timer ∧
        s1.emitted = s.emitted) ∧
      s1.player_position.stance = stance ∧
      s1.player_position.on_ground = on_ground ∧
      s1.submitted = s.submitted ∧ s1.socket_calls = s.socket_calls := by
  by_cases h : s.m_login_state = LoginStatus.WaitingForPlayerPositionAndLook
  · simp [processIncomingMessage, h, gotFirstPlayerPositionAndLookResponse, changeLoginState,
      fromNotchianYawPitch, fromNotchianXyz]
  · simp [processIncomingMessage, h, fromNotchianYawPitch, fromNotchianXyz]

/-- C10 (counterexample): on a running session, a DisconnectOrKick with reason "flying" and
one with reason "griefing", each followed by the clean-up that the transport's disconnect
triggers, end with the same notifications, `loginStatusUpdated Disconnected` and
`socketDisconnected`, neither of which carries a reason; so no function of the
notifications gives back the reason. -/
theorem C10_reason_not_in_notifications :
    (∃ s1, processIncomingMessage exampleEnv (IncomingResponse.DisconnectOrKick "flying")
        exampleReadyServer = Outcome.ok s1 ∧
      (cleanUpAfterDisconnect s1).emitted =
        [Signal.loginStatusUpdated LoginStatus.Disconnected, Signal.socketDisconnected]) ∧
    (∃ s1, processIncomingMessage exampleEnv (IncomingResponse.DisconnectOrKick "griefing")
        exampleReadyServer = Outcome.ok s1 ∧
      (cleanUpAfterDisconnect s1).emitted =
        [Signal.loginStatusUpdated LoginStatus.Disconnected, Signal.socketDisconnected]) ∧
    "flying" ≠ "griefing" ∧
    ¬ ∃ retrieve : List Signal → String, ∀ reason s1,
      processIncomingMessage exampleEnv (IncomingResponse.DisconnectOrKick reason)
        exampleReadyServer = Outcome.ok s1 →
      retrieve (cleanUpAfterDisconnect s1).emitted = reason := by
  refine ⟨⟨_, rfl, by decide⟩, ⟨_, rfl, by decide⟩, by decide, ?_⟩
  rintro ⟨retrieve, h⟩
  have h1 := h "flying" _ rfl
  have h2 := h "griefing" _ rfl
  have e : (cleanUpAfterDisconnect (finishWritingAndDisconnect
      { exampleReadyServer with debug_output := exampleReadyServer.debug_output ++
          ["got disconnected: " ++ "flying"] })).emitted =
      (cleanUpAfterDisconnect (finishWritingAndDisconnect
      { exampleReadyServer with debug_output := exampleReadyServer.debug_output ++
          ["got disconnected: " ++ "griefing"] })).emitted := by decide
  rw [e, h2] at h1
  exact absurd h1 (by decide)

/-- C10 (amended): in every state a DisconnectOrKick message is processed without failure and
gives exactly one message to `sendMessage`, the DummyDisconnect request; nothing is written
to the socket; `disconnectFromHost` is called once when the socket is open (and nothing is
called when it is not); login state and notifications are unchanged and the reason goes to
the debug output only.  The clean-up that the transport's disconnect then triggers sets the
login state to `Disconnected` and emits `loginStatusUpdated Disconnected` and
`socketDisconnected`, whatever the reason was. -/
theorem C10_disconnect_or_kick (env : Externals) (reason : String) (s : Server) :
    ∃ s1, processIncomingMessage env (IncomingResponse.DisconnectOrKick reason) s
        = Outcome.ok s1 ∧
      s1.submitted = s.submitted ++ [OutgoingRequest.DummyDisconnectRequest] ∧
      s1.socket_calls =
        s.socket_calls ++ (if s.socket_isOpen then [SocketCall.disconnectFromHost] else []) ∧
      s1.m_login_state = s.m_login_state ∧
      s1.emitted = s.emitted ∧
      s1.debug_output = s.debug_output ++ ["got disconnected: " ++ reason] ∧
      (cleanUpAfterDisconnect s1).m_login_state = LoginStatus.Disconnected ∧
      (cleanUpAfterDisconnect s1).emitted = s.emitted ++
        [Signal.loginStatusUpdated LoginStatus.Disconnected, Signal.socketDisconnected] := by
  refine ⟨_, rfl, ?_⟩
  simp only [finishWritingAndDisconnect, sendMessage, socketDisconnect, cleanUpAfterDisconnect,
    terminate, changeLoginState]
  cases s.socket_isOpen <;> simp

/-- C11 (counterexample): on a freshly constructed server, whose socket is not open,
`sendMessage` of the DummyDisconnect request makes no call on the socket at all: no close
is requested. -/
theorem C11_sentinel_on_closed_socket :
    exampleServer.socket_isOpen = false ∧
    (sendMessage OutgoingRequest.DummyDisconnectRequest exampleServer).socket_calls = [] ∧
    SocketCall.disconnectFromHost ∉
      (sendMessage OutgoingRequest.DummyDisconnectRequest exampleServer).socket_calls := by
  decide

/-- C11 (amended): `sendMessage` changes nothing but the calls made on the socket (and the
record of its own argument).  For the DummyDisconnect request it runs `socketDisconnect`:
nothing is written, and `disconnectFromHost` is called exactly when the socket is open.
For every other message the message is written exactly when the socket is open, and no
call is made when it is not.  Login state, stored position, timer and notifications are
never changed. -/
theorem C11_sendMessage (msg : OutgoingRequest) (s : Server) :
    sendMessage msg s =
      { s with
        submitted := s.submitted ++ [msg]
        socket_calls := s.socket_calls ++
          (if msg = OutgoingRequest.DummyDisconnectRequest then
            (if s.socket_isOpen then [SocketCall.disconnectFromHost] else [])
           else (if s.socket_isOpen then [SocketCall.write msg] else [])) } ∧
    sendMessage OutgoingRequest.DummyDisconnectRequest s
      = socketDisconnect { s with submitted :=
          s.submitted ++ [OutgoingRequest.DummyDisconnectRequest] } ∧
    (∀ m, SocketCall.write m ∈
        (sendMessage OutgoingRequest.DummyDisconnectRequest s).socket_calls →
      SocketCall.write m ∈ s.socket_calls) ∧
    (sendMessage msg s).m_login_state = s.m_login_state ∧
    (sendMessage msg s).player_position = s.player_position ∧
    (sendMessage msg s).m_position_update_timer = s.m_position_update_timer ∧
    (sendMessage msg s).emitted = s.emitted := by
  refine ⟨?_, ?_, ?_, ?_, ?_, ?_, ?_⟩
  · unfold sendMessage socketDisconnect
    by_cases h1 : msg = OutgoingRequest.DummyDisconnectRequest <;>
      by_cases h2 : s.socket_isOpen = true <;> simp [h1, h2]
  · simp [sendMessage]
  · intro m
    unfold sendMessage socketDisconnect
    by_cases h2 : s.socket_isOpen = true <;> simp [h2]
  all_goals
    unfold sendMessage socketDisconnect
    by_cases h1 : msg = OutgoingRequest.DummyDisconnectRequest <;>
      by_cases h2 : s.socket_isOpen = true <;> simp [h1, h2]

/-- C12 (counterexample): on a logged-in server (login state `Success`, socket open)
`socketConnect` sets the login state to `Connecting`, emits a notification of it and calls
`connectToHost`; on a server that is already `Connecting` it still emits the notification
and calls `connectToHost` again. -/
theorem C12_connect_not_idempotent :
    exampleReadyServer.m_login_state = LoginStatus.Success ∧
    (socketConnect exampleReadyServer).m_login_state = LoginStatus.Connecting ∧
    (socketConnect exampleReadyServer).emitted
      = [Signal.loginStatusUpdated LoginStatus.Connecting] ∧
    (socketConnect exampleReadyServer).socket_calls
      = [SocketCall.connectToHost "localhost" 25565] ∧
    (socketConnect (socketConnect exampleServer)).emitted
      = [Signal.loginStatusUpdated LoginStatus.Connecting,
         Signal.loginStatusUpdated LoginStatus.Connecting] ∧
    (socketConnect (socketConnect exampleServer)).socket_calls
      = [SocketCall.connectToHost "localhost" 25565,
         SocketCall.connectToHost "localhost" 25565] ∧
    socketConnect exampleReadyServer ≠ exampleReadyServer := by
  decide

/-- C12 (amended): in every state `socketConnect` sets the login state to `Connecting`, emits
the notification of it and calls `connectToHost` with the host and the port (25565 when
none is given) of the connection info; nothing else changes. -/
theorem C12_socketConnect (s : Server) :
    socketConnect s =
      { s with
        m_login_state := LoginStatus.Connecting
        emitted := s.emitted ++ [Signal.loginStatusUpdated LoginStatus.Connecting]
        socket_calls := s.socket_calls ++
          [SocketCall.connectToHost s.m_connection_info.host
            (s.m_connection_info.port.getD 25565)] } := by
  rfl

/-- C13: in the state after any sequence of events on a freshly constructed server (the state
at the failed assertion, when one fails), the position timer is either absent or a running
timer of interval 200, and it is present only if a PlayerPositionAndLook response is among
the events processed; when none is, a timer timeout does nothing (there is no timer to
give one).  The example login run does start the timer. -/
theorem C13_timer_only_after_first_position (env : Externals)
    (connection_info : ConnectionInfo) (position : EntityPosition) (events : List Event) :
    ((runEvents env events (Server.new connection_info position)).state.m_position_update_timer
        = none ∨
      (runEvents env events (Server.new connection_info position)).state.m_position_update_timer
        = some { interval := 200, active := true }) ∧
    ((runEvents env events (Server.new connection_info position)).state.m_position_update_timer
        ≠ none →
      ∃ x y z stance yaw pitch on_ground,
        Event.message (IncomingResponse.PlayerPositionAndLook x y z stance yaw pitch on_ground)
          ∈ processedEvents env events (Server.new connection_info position)) ∧
    ((∀ x y z stance yaw pitch on_ground,
        Event.message (IncomingResponse.PlayerPositionAndLook x y z stance yaw pitch on_ground)
          ∉ processedEvents env events (Server.new connection_info position)) →
      step env Event.timeout (runEvents env events (Server.new connection_info position)).state
        = Outcome.ok (runEvents env events (Server.new connection_info position)).state) ∧
    (runEvents exampleEnv exampleLoginRun exampleServer).state.m_position_update_timer
      = some { interval := 200, active := true } := by
  have h := run_timer env events (Server.new connection_info position)
  have h0 : (Server.new connection_info position).m_position_update_timer = none := rfl
  rw [h0] at h
  refine ⟨?_, ?_, ?_, by decide⟩
  · rcases h with h | ⟨h, -⟩
    · left; exact h
    · right; exact h
  · intro hne
    rcases h with h | ⟨-, h⟩
    · exact absurd h hne
    · exact h
  · intro hno
    rcases h with h | ⟨-, x, y, z, stance, yaw, pitch, on_ground, h⟩
    · simp only [step, h]
    · exact absurd h (hno x y z stance yaw pitch on_ground)

/-- C14: along any sequence of events on a freshly constructed server, the login state is
always the last state notified, so that the states notified are the states assigned, and of
the changes of state every one to `Success` comes from `WaitingForPlayerPositionAndLook`,
every one to `WaitingForPlayerPositionAndLook` comes from `WaitingForLoginResponse`, and
every one to `WaitingForLoginResponse` comes from `WaitingForHandshakeResponse`.  A socket
error is processed in every state and gives `SocketError`.  The example login run makes
the five changes in order. -/
theorem C14_login_state_order (env : Externals) (connection_info : ConnectionInfo)
    (position : EntityPosition) (events : List Event) :
    (runEvents env events (Server.new connection_info position)).state.m_login_state
      = (loginStates (runEvents env events (Server.new connection_info position)).state.emitted
          ).getLastD LoginStatus.Disconnected ∧
    (∀ source target : LoginStatus,
      (source, target) ∈ transitionsFrom LoginStatus.Disconnected
        (loginStates (runEvents env events (Server.new connection_info position)).state.emitted) →
      (target = LoginStatus.Success →
        source = LoginStatus.WaitingForPlayerPositionAndLook) ∧
      (target = LoginStatus.WaitingForPlayerPositionAndLook →
        source = LoginStatus.WaitingForLoginResponse) ∧
      (target = LoginStatus.WaitingForLoginResponse →
        source = LoginStatus.WaitingForHandshakeResponse)) ∧
    (∀ (error : String) (s : Server),
      step env (Event.socketError error) s = Outcome.ok (handleSocketError error s) ∧
      (handleSocketError error s).m_login_state = LoginStatus.SocketError) ∧
    transitionsFrom LoginStatus.Disconnected
        (loginStates (runEvents exampleEnv exampleLoginRun exampleServer).state.emitted)
      = [(LoginStatus.Disconnected, LoginStatus.Connecting),
         (LoginStatus.Connecting, LoginStatus.WaitingForHandshakeResponse),
         (LoginStatus.WaitingForHandshakeResponse, LoginStatus.WaitingForLoginResponse),
         (LoginStatus.WaitingForLoginResponse, LoginStatus.WaitingForPlayerPositionAndLook),
         (LoginStatus.WaitingForPlayerPositionAndLook, LoginStatus.Success)] := by
  have h0 : LoginInvariant (Server.new connection_info position) := by
    constructor
    · rfl
    · intro t ht
      simp [Server.new, loginStates, transitionsFrom] at ht
  obtain ⟨h1, h2⟩ := run_invariant env events _ h0
  refine ⟨h1, ?_, fun error s => ⟨rfl, rfl⟩, by decide⟩
  intro source target ht
  exact h2 (source, target) ht

/-- C15 (counterexample): after a socket error on a logged-in server the login state is
`SocketError`; the clean-up that the transport's disconnect triggers then sets it to
`Disconnected`, `socketConnect` sets it to `Connecting` and `handleConnected` sets it to
`WaitingForHandshakeResponse`. -/
theorem C15_errored_not_terminal :
    (handleSocketError "reset" exampleReadyServer).m_login_state = LoginStatus.SocketError ∧
    (cleanUpAfterDisconnect (handleSocketError "reset" exampleReadyServer)).m_login_state
      = LoginStatus.Disconnected ∧
    (socketConnect (handleSocketError "reset" exampleReadyServer)).m_login_state
      = LoginStatus.Connecting ∧
    (handleConnected (handleSocketError "reset" exampleReadyServer)).m_login_state
      = LoginStatus.WaitingForHandshakeResponse ∧
    (runEvents exampleEnv [Event.socketError "reset", Event.disconnected]
      exampleReadyServer).state.m_login_state = LoginStatus.Disconnected := by
  decide

/-- C15 (amended): a socket error sets the login state to `SocketError` in every state and
emits the notification of it.  In login state `SocketError` no incoming message changes the
login state (a Handshake response fails its assertion, every other message is processed
and leaves the login state alone), nor do `sendMessage`, `socketDisconnect` or the timer;
but `socketConnect` sets `Connecting`, `handleConnected` sets
`WaitingForHandshakeResponse` and `cleanUpAfterDisconnect` sets `Disconnected`. -/
theorem C15_socket_error (env : Externals) (error : String) (s : Server) :
    (handleSocketError error s).m_login_state = LoginStatus.SocketError ∧
    (handleSocketError error s).emitted
      = s.emitted ++ [Signal.loginStatusUpdated LoginStatus.SocketError] ∧
    (∀ e : Event, s.m_login_state = LoginStatus.SocketError →
      e ≠ Event.connect → e ≠ Event.connected → e ≠ Event.disconnected →
      (step env e s).state.m_login_state = LoginStatus.SocketError) ∧
    (∀ connectionHash, s.m_login_state = LoginStatus.SocketError →
      processIncomingMessage env (IncomingResponse.Handshake connectionHash) s
        = Outcome.aborted s Fatal.loginStateAssert) ∧
    (step env Event.connect s).state.m_login_state = LoginStatus.Connecting ∧
    (step env Event.connected s).state.m_login_state
      = LoginStatus.WaitingForHandshakeResponse ∧
    (step env Event.disconnected s).state.m_login_state = LoginStatus.Disconnected := by
  refine ⟨rfl, rfl, ?_, ?_, rfl, ?_, rfl⟩
  · intro e hs h1 h2 h3
    cases e with
    | connect => exact absurd rfl h1
    | connected => exact absurd rfl h2
    | disconnected => exact absurd rfl h3
    | disconnect =>
      simp only [step, Outcome.state, socketDisconnect]
      split_ifs <;> exact hs
    | submit msg =>
      simp only [step, Outcome.state]
      rw [(sendMessage_state msg s).1]
      exact hs
    | socketError error1 => rfl
    | timeout =>
      simp only [step]
      cases ht : s.m_position_update_timer with
      | none => exact hs
      | some timer =>
        simp only
        split_ifs
        · simp only [Outcome.state, sendPosition]
          rw [(sendMessage_state _ s).1]
          exact hs
        · exact hs
    | transport isOpen => exact hs
    | message m =>
      cases m with
      | Handshake connectionHash =>
        simp [step, processIncomingMessage, hs, Outcome.state]
      | PlayerPositionAndLook x y z stance yaw pitch on_ground =>
        simp [step, processIncomingMessage, hs, Outcome.state]
      | MapChunk x y z mx my mz compressed_data =>
        simp only [step, processIncomingMessage]
        split <;> exact hs
      | DisconnectOrKick reason =>
        simp only [step, processIncomingMessage, Outcome.state, finishWritingAndDisconnect]
        rw [(sendMessage_state _ _).1]
        exact hs
      | Other messageType => exact hs
  · intro connectionHash hs
    simp [processIncomingMessage, hs]
  · simp only [step, Outcome.state, handleConnected]
    rw [(sendMessage_state _ _).1]
    rfl

/-- C16 (the code at the failing input): a PlayerPositionAndLook response with wire
coordinates `x = 1, y = 2, z = 3`, stance 5 and on_ground true, followed by one run of
`sendPosition`, submits a request with wire coordinates `x = 1, y = 3, z = 2`: the wire
`y` and `z` come back exchanged.  Stance and on_ground come back unchanged. -/
theorem C16_echo_swaps_y_and_z :
    ∃ s1, processIncomingMessage exampleEnv
        (IncomingResponse.PlayerPositionAndLook 1 2 3 5 (Binary32.finite 0) (Binary32.finite 0)
          true) exampleReadyServer
        = Outcome.ok s1 ∧
      (sendPosition s1).submitted
        = [OutgoingRequest.PlayerPositionAndLookRequest 1 3 2 5 (Binary32.finite 0)
            (Binary32.finite (-180)) true] ∧
      (sendPosition s1).socket_calls
        = [SocketCall.write (OutgoingRequest.PlayerPositionAndLookRequest 1 3 2 5
            (Binary32.finite 0) (Binary32.finite (-180)) true)] := by
  refine ⟨_, rfl, ?_, ?_⟩ <;> decide!

/-- C17 (counterexample): the MapChunk response with extents-minus-one `(1, 1, 1)` and the
example payload is decoded to the chunk of the hand-made table, of size `(2, -2, 2)`.  The
box `0 ≤ i < size.x`, `0 ≤ j < size.y`, `0 ≤ k < size.z` is empty, and each of the eight
cells written lies outside it. -/
theorem C17_cells_outside_size_box :
    processIncomingMessage exampleEnv
        (IncomingResponse.MapChunk 16 0 (-32) 1 1 1 exampleChunkData) exampleReadyServer
      = Outcome.ok { exampleReadyServer with
          emitted := [Signal.mapChunkUpdated exampleChunk] } ∧
    exampleChunk.size = { x := 2, y := -2, z := 2 } ∧
    exampleChunk.writes.length = 8 ∧
    ∀ w ∈ exampleChunk.writes,
      ¬ (0 ≤ w.1.x ∧ w.1.x < exampleChunk.size.x ∧ 0 ≤ w.1.y ∧ w.1.y < exampleChunk.size.y ∧
        0 ≤ w.1.z ∧ w.1.z < exampleChunk.size.z) := by
  decide

/-- C17 (amended): for a MapChunk response with non-negative extents-minus-one, processing
succeeds when the decompressed buffer holds the bytes of the extents and fails the
assertion of `QByteArray::at`, leaving the state as it was (no chunk is emitted), when it
holds fewer; and whenever it succeeds, the chunk emitted has size `(sz, -sx, sy)` for the
wire extents `(sx, sy, sz)`, whose `y` is negative, and the cells written are exactly those
of the box `0 ≤ i < size.x`, `size.y < j ≤ 0`, `0 ≤ k < size.z`: each cell of that box is
written exactly once and no other cell is written. -/
theorem C17_written_cells (env : Externals) (s : Server)
    (x y z size_x_minus_one size_y_minus_one size_z_minus_one : Int)
    (compressed_data : List Int)
    (hx : 0 ≤ size_x_minus_one) (hy : 0 ≤ size_y_minus_one) (hz : 0 ≤ size_z_minus_one) :
    ((size_x_minus_one + 1) * (size_y_minus_one + 1) * (size_z_minus_one + 1)
        ≤ ((env.qUncompress ([0, 0, 0, 0] ++ compressed_data)).length : Int) →
      ∃ s1, processIncomingMessage env
        (IncomingResponse.MapChunk x y z size_x_minus_one size_y_minus_one size_z_minus_one
          compressed_data) s = Outcome.ok s1) ∧
    (((env.qUncompress ([0, 0, 0, 0] ++ compressed_data)).length : Int)
        < (size_x_minus_one + 1) * (size_y_minus_one + 1) * (size_z_minus_one + 1) →
      processIncomingMessage env
        (IncomingResponse.MapChunk x y z size_x_minus_one size_y_minus_one size_z_minus_one
          compressed_data) s = Outcome.aborted s Fatal.byteArrayIndexAssert) ∧
    (∀ s1, processIncomingMessage env
        (IncomingResponse.MapChunk x y z size_x_minus_one size_y_minus_one size_z_minus_one
          compressed_data) s = Outcome.ok s1 →
      ∃ chunk : Chunk,
        s1 = { s with emitted := s.emitted ++ [Signal.mapChunkUpdated chunk] } ∧
        chunk.size = { x := size_z_minus_one + 1, y := -(size_x_minus_one + 1),
                       z := size_y_minus_one + 1 } ∧
        chunk.size.y < 0 ∧
        ∀ c : Coord, List.count c (chunk.writes.map Prod.fst) =
          if 0 ≤ c.x ∧ c.x < chunk.size.x ∧ chunk.size.y < c.y ∧ c.y ≤ 0 ∧
              0 ≤ c.z ∧ c.z < chunk.size.z then 1 else 0) := by
  have hsize : fromNotchianXyzCoord (size_x_minus_one + 1) (size_y_minus_one + 1)
      (size_z_minus_one + 1)
      = { x := size_z_minus_one + 1, y := -(size_x_minus_one + 1),
          z := size_y_minus_one + 1 } := by
    simp only [fromNotchianXyzCoord]
    rw [intNeg_of_nonneg _ (by omega)]
  refine ⟨processIncomingMessage_mapChunk_ok env s x y z _ _ _ compressed_data, ?_, ?_⟩
  · intro hshort
    refine processIncomingMessage_mapChunk_short env s x y z _ _ _ compressed_data ?_
    have e := toNat_product_eq (size_x_minus_one + 1) (size_y_minus_one + 1)
      (size_z_minus_one + 1) (by omega) (by omega) (by omega)
    rw [← e] at hshort
    exact_mod_cast hshort
  intro s1 h
  obtain ⟨-, h2⟩ := processIncomingMessage_mapChunk env s s1 x y z _ _ _ compressed_data h
  have hsz : (decodedState (env.qUncompress ([0, 0, 0, 0] ++ compressed_data))
      (size_y_minus_one + 1).toNat (size_z_minus_one + 1).toNat
      ((size_x_minus_one + 1).toNat * (size_z_minus_one + 1).toNat *
        (size_y_minus_one + 1).toNat)
      (Chunk.new (fromNotchianXyzCoord x y z)
        (fromNotchianXyzCoord (size_x_minus_one + 1) (size_y_minus_one + 1)
          (size_z_minus_one + 1)))).chunk.size
      = { x := size_z_minus_one + 1, y := -(size_x_minus_one + 1),
          z := size_y_minus_one + 1 } := hsize
  refine ⟨_, h2, hsz, ?_, ?_⟩
  · rw [hsz]
    show -(size_x_minus_one + 1) < 0
    omega
  intro c
  have hnodup := decodedState_nodup (env.qUncompress ([0, 0, 0, 0] ++ compressed_data))
    (size_y_minus_one + 1).toNat (size_z_minus_one + 1).toNat
    ((size_x_minus_one + 1).toNat * (size_z_minus_one + 1).toNat * (size_y_minus_one + 1).toNat)
    (fromNotchianXyzCoord x y z)
    (fromNotchianXyzCoord (size_x_minus_one + 1) (size_y_minus_one + 1) (size_z_minus_one + 1))
  have hmem := mem_cells_iff (size_x_minus_one + 1).toNat (size_y_minus_one + 1).toNat
    (size_z_minus_one + 1).toNat c
  rw [← List.mem_reverse, ← decodedState_cells (env.qUncompress ([0, 0, 0, 0] ++
    compressed_data)) _ _ _ (fromNotchianXyzCoord x y z)
    (fromNotchianXyzCoord (size_x_minus_one + 1) (size_y_minus_one + 1)
      (size_z_minus_one + 1))] at hmem
  rw [hsz]
  simp only
  split_ifs with hbox
  · exact List.count_eq_one_of_mem hnodup (hmem.mpr (by omega))
  · refine List.count_eq_zero_of_not_mem (fun hin => hbox ?_)
    have := hmem.mp hin
    omega

/-- Witness of C17: the 2 x 2 x 2 chunk with extents-minus-one `(1, 1, 1)` on a logged-in
server.  The chunk emitted has size `(2, -2, 2)`; the cell `(1, -1, 0)` of the box is written
once and the cell `(1, 1, 0)`, outside it, is not written. -/
theorem C17_written_cells_witness :
    ((0 : Int) ≤ 1) ∧
    processIncomingMessage exampleEnv
        (IncomingResponse.MapChunk 16 0 (-32) 1 1 1 exampleChunkData) exampleReadyServer
      = Outcome.ok { exampleReadyServer with
          emitted := [Signal.mapChunkUpdated exampleChunk] } ∧
    (∃ chunk : Chunk,
      ({ exampleReadyServer with emitted := [Signal.mapChunkUpdated exampleChunk] } : Server)
        = { exampleReadyServer with
            emitted := exampleReadyServer.emitted ++ [Signal.mapChunkUpdated chunk] } ∧
      chunk.size = { x := 1 + 1, y := -(1 + 1), z := 1 + 1 } ∧ chunk.size.y < 0 ∧
      List.count { x := 1, y := -1, z := 0 } (chunk.writes.map Prod.fst) = 1 ∧
      List.count { x := 1, y := 1, z := 0 } (chunk.writes.map Prod.fst) = 0) := by
  have hrun : processIncomingMessage exampleEnv
      (IncomingResponse.MapChunk 16 0 (-32) 1 1 1 exampleChunkData) exampleReadyServer
      = Outcome.ok { exampleReadyServer with
          emitted := [Signal.mapChunkUpdated exampleChunk] } := by decide
  refine ⟨by decide, hrun, ?_⟩
  obtain ⟨chunk, h1, h2, h3, h4⟩ :=
    (C17_written_cells exampleEnv exampleReadyServer 16 0 (-32) 1 1 1 exampleChunkData
      (by decide) (by decide) (by decide)).2.2 _ hrun
  refine ⟨chunk, h1, h2, h3, ?_, ?_⟩
  · rw [h4, h2]; decide
  · rw [h4, h2]; decide

/-- C18: for a MapChunk response with non-negative extents-minus-one, processing succeeds when
the decompressed buffer holds the bytes of the extents; and whenever it succeeds, the chunk
emitted has a size whose `y` is `-(size_x_minus_one + 1)`, which is negative; every
coordinate a block type is assigned at has `y` from `-size_x_minus_one` to 0, `x` from 0 to
`size_z_minus_one` and `z` from 0 to `size_y_minus_one`; the coordinates assigned at are
pairwise distinct, and there are `size_x * size_y * size_z` of them. -/
theorem C18_negative_y_extent (env : Externals) (s : Server)
    (x y z size_x_minus_one size_y_minus_one size_z_minus_one : Int)
    (compressed_data : List Int)
    (hx : 0 ≤ size_x_minus_one) (hy : 0 ≤ size_y_minus_one) (hz : 0 ≤ size_z_minus_one) :
    ((size_x_minus_one + 1) * (size_y_minus_one + 1) * (size_z_minus_one + 1)
        ≤ ((env.qUncompress ([0, 0, 0, 0] ++ compressed_data)).length : Int) →
      ∃ s1, processIncomingMessage env
        (IncomingResponse.MapChunk x y z size_x_minus_one size_y_minus_one size_z_minus_one
          compressed_data) s = Outcome.ok s1) ∧
    (∀ s1, processIncomingMessage env
        (IncomingResponse.MapChunk x y z size_x_minus_one size_y_minus_one size_z_minus_one
          compressed_data) s = Outcome.ok s1 →
      ∃ chunk : Chunk,
        s1 = { s with emitted := s.emitted ++ [Signal.mapChunkUpdated chunk] } ∧
        chunk.size.y = -(size_x_minus_one + 1) ∧
        chunk.size.y < 0 ∧
        (∀ w ∈ chunk.writes,
          -size_x_minus_one ≤ w.1.y ∧ w.1.y ≤ 0 ∧
          0 ≤ w.1.x ∧ w.1.x ≤ size_z_minus_one ∧
          0 ≤ w.1.z ∧ w.1.z ≤ size_y_minus_one) ∧
        (chunk.writes.map Prod.fst).Nodup ∧
        (chunk.writes.length : Int)
          = (size_x_minus_one + 1) * (size_y_minus_one + 1) * (size_z_minus_one + 1)) := by
  refine ⟨processIncomingMessage_mapChunk_ok env s x y z _ _ _ compressed_data, ?_⟩
  intro s1 h
  obtain ⟨-, h2⟩ := processIncomingMessage_mapChunk env s s1 x y z _ _ _ compressed_data h
  refine ⟨_, h2, ?_, ?_, ?_, decodedState_nodup _ _ _ _ _ _, ?_⟩
  · show intNeg (size_x_minus_one + 1) = -(size_x_minus_one + 1)
    exact intNeg_of_nonneg _ (by omega)
  · show intNeg (size_x_minus_one + 1) < 0
    rw [intNeg_of_nonneg _ (by omega)]
    omega
  · intro w hw
    have hmem : w.1 ∈ (decodedState (env.qUncompress ([0, 0, 0, 0] ++ compressed_data))
        (size_y_minus_one + 1).toNat (size_z_minus_one + 1).toNat
        ((size_x_minus_one + 1).toNat * (size_z_minus_one + 1).toNat *
          (size_y_minus_one + 1).toNat)
        (Chunk.new (fromNotchianXyzCoord x y z)
          (fromNotchianXyzCoord (size_x_minus_one + 1) (size_y_minus_one + 1)
            (size_z_minus_one + 1)))).chunk.writes.map Prod.fst :=
      List.mem_map_of_mem _ hw
    rw [decodedState_cells, List.mem_reverse, mem_cells_iff] at hmem
    omega
  · have hlen : (decodedState (env.qUncompress ([0, 0, 0, 0] ++ compressed_data))
        (size_y_minus_one + 1).toNat (size_z_minus_one + 1).toNat
        ((size_x_minus_one + 1).toNat * (size_z_minus_one + 1).toNat *
          (size_y_minus_one + 1).toNat)
        (Chunk.new (fromNotchianXyzCoord x y z)
          (fromNotchianXyzCoord (size_x_minus_one + 1) (size_y_minus_one + 1)
            (size_z_minus_one + 1)))).chunk.writes.length
        = (size_x_minus_one + 1).toNat * (size_z_minus_one + 1).toNat *
          (size_y_minus_one + 1).toNat := by
      simp [decodedState, Chunk.new]
    rw [hlen]
    push_cast
    rw [Int.toNat_of_nonneg (by omega), Int.toNat_of_nonneg (by omega),
      Int.toNat_of_nonneg (by omega)]
    ring

/-- Witness of C18: the 2 x 2 x 2 chunk with extents-minus-one `(1, 1, 1)` on a logged-in
server.  The chunk emitted is the one of the hand-made table: size `(2, -2, 2)`, eight
distinct coordinates with `y` in `-1 .. 0`, `x` and `z` in `0 .. 1`. -/
theorem C18_negative_y_extent_witness :
    ((0 : Int) ≤ 1) ∧
    processIncomingMessage exampleEnv
        (IncomingResponse.MapChunk 16 0 (-32) 1 1 1 exampleChunkData) exampleReadyServer
      = Outcome.ok { exampleReadyServer with
          emitted := [Signal.mapChunkUpdated exampleChunk] } ∧
    (∃ chunk : Chunk,
      ({ exampleReadyServer with emitted := [Signal.mapChunkUpdated exampleChunk] } : Server)
        = { exampleReadyServer with
            emitted := exampleReadyServer.emitted ++ [Signal.mapChunkUpdated chunk] } ∧
      chunk.size.y = -(1 + 1) ∧ chunk.size.y < 0 ∧
      (chunk.writes.map Prod.fst).Nodup ∧
      (chunk.writes.length : Int) = (1 + 1) * (1 + 1) * (1 + 1)) := by
  have hrun : processIncomingMessage exampleEnv
      (IncomingResponse.MapChunk 16 0 (-32) 1 1 1 exampleChunkData) exampleReadyServer
      = Outcome.ok { exampleReadyServer with
          emitted := [Signal.mapChunkUpdated exampleChunk] } := by decide
  refine ⟨by decide, hrun, ?_⟩
  obtain ⟨chunk, h1, h2, h3, -, h5, h6⟩ :=
    (C18_negative_y_extent exampleEnv exampleReadyServer 16 0 (-32) 1 1 1 exampleChunkData
      (by decide) (by decide) (by decide)).2 _ hrun
  exact ⟨chunk, h1, h2, h3, h5, h6⟩

/-- C19 (counterexample): a PlayerPositionAndLook response whose wire pitch is an infinity,
or a NaN, stores a NaN as pitch, and the request that the next `sendPosition` submits
carries a NaN as pitch, which is no number: it is neither negative nor at least -360. -/
theorem C19_pitch_not_a_number :
    (∃ s1, processIncomingMessage exampleEnv
        (IncomingResponse.PlayerPositionAndLook 1 2 3 5 (Binary32.finite 0)
          (Binary32.infinite false) true) exampleReadyServer = Outcome.ok s1 ∧
      s1.player_position.pitch = Binary32.nan ∧
      (sendPosition s1).submitted
        = [OutgoingRequest.PlayerPositionAndLookRequest 1 3 2 5 (Binary32.finite 0)
            Binary32.nan true]) ∧
    (∃ s1, processIncomingMessage exampleEnv
        (IncomingResponse.PlayerPositionAndLook 1 2 3 5 (Binary32.finite 0)
          Binary32.nan true) exampleReadyServer = Outcome.ok s1 ∧
      s1.player_position.pitch = Binary32.nan ∧
      (sendPosition s1).submitted
        = [OutgoingRequest.PlayerPositionAndLookRequest 1 3 2 5 (Binary32.finite 0)
            Binary32.nan true]) ∧
    ∀ v : ℚ, Binary32.nan ≠ Binary32.finite v := by
  refine ⟨⟨_, rfl, ?_, ?_⟩, ⟨_, rfl, ?_, ?_⟩, ?_⟩
  · decide!
  · decide!
  · decide!
  · decide!
  · intro v h
    cases h

/-- C19 (amended): for every PlayerPositionAndLook response with a finite wire pitch (a value
below `2 ^ 128` in magnitude, as every finite `float` is), in every state, the stored pitch
is finite: it is the wire pitch in radians plus `c_pi`, reduced by `euclideanMod c_2pi`,
minus `c_2pi`; the request that the next `sendPosition` submits carries
`radiansToDegrees` of it, a finite value that is negative and not below -360 (in binary32
arithmetic, with no allowance needed), and for a wire pitch of 0 it is -180. -/
theorem C19_pitch_echo (env : Externals) (x y z stance : ℚ) (yaw : Binary32) (pitch : ℚ)
    (on_ground : Bool) (s : Server) (hp : |pitch| < 2 ^ 128) :
    ∃ s1, processIncomingMessage env
        (IncomingResponse.PlayerPositionAndLook x y z stance yaw (Binary32.finite pitch)
          on_ground) s
        = Outcome.ok s1 ∧
      s1.player_position.pitch
        = Binary32.finite
            (F32.sub (euclideanMod (F32.add (degreesToRadians pitch) c_pi) c_2pi) c_2pi) ∧
      ∃ rx ry rz rstance ryaw rground, ∃ rpitch : ℚ,
        (sendPosition s1).submitted = s1.submitted ++
          [OutgoingRequest.PlayerPositionAndLookRequest rx ry rz rstance ryaw
            (Binary32.finite rpitch) rground] ∧
        rpitch = radiansToDegrees
          (F32.sub (euclideanMod (F32.add (degreesToRadians pitch) c_pi) c_2pi) c_2pi) ∧
        -360 ≤ rpitch ∧ rpitch < 0 ∧
        (pitch = 0 → rpitch = -180) := by
  have hb := pitch_round_trip_bounds pitch
  have h0 : radiansToDegrees
      (F32.sub (euclideanMod (F32.add (degreesToRadians 0) c_pi) c_2pi) c_2pi) = -180 := by
    decide!
  have hok : ∃ s1, processIncomingMessage env
      (IncomingResponse.PlayerPositionAndLook x y z stance yaw (Binary32.finite pitch)
        on_ground) s = Outcome.ok s1 ∧
      s1.player_position.pitch
        = (fromNotchianYawPitch
            { fromNotchianXyz s.player_position x z y with stance := stance } yaw
            (Binary32.finite pitch)).pitch := by
    simp only [processIncomingMessage]
    split_ifs
    · exact ⟨_, rfl, rfl⟩
    · exact ⟨_, rfl, rfl⟩
  obtain ⟨s1, h1, h2⟩ := hok
  rw [fromNotchianYawPitch_pitch_finite _ yaw pitch hp] at h2
  have habs : |F32.sub (euclideanMod (F32.add (degreesToRadians pitch) c_pi) c_2pi) c_2pi|
      < 2 ^ 100 := by
    have hD : c_2pi = 13176795 / 2097152 := c_2pi_eq
    have e : (8 : ℚ) ≤ 2 ^ 100 := by norm_num
    rw [abs_lt]
    constructor <;> linarith [hb.1, hb.2.1]
  have hecho : (toNotchianYawPitch s1.player_position).2
      = Binary32.finite (radiansToDegrees
          (F32.sub (euclideanMod (F32.add (degreesToRadians pitch) c_pi) c_2pi) c_2pi)) := by
    show Binary32.radiansToDegrees s1.player_position.pitch = _
    rw [h2]
    exact radiansToDegrees_finite _ habs
  have hsend : (sendPosition s1).submitted = s1.submitted ++
      [OutgoingRequest.PlayerPositionAndLookRequest (toNotchianXyz s1.player_position).1
        (toNotchianXyz s1.player_position).2.1 (toNotchianXyz s1.player_position).2.2
        s1.player_position.stance (toNotchianYawPitch s1.player_position).1
        (toNotchianYawPitch s1.player_position).2 s1.player_position.on_ground] :=
    sendMessage_submitted _ _
  rw [hecho] at hsend
  refine ⟨s1, h1, h2, _, _, _, _, _, _, _, hsend, rfl, hb.2.2.1, hb.2.2.2, ?_⟩
  intro hp0
  rw [hp0]
  exact h0

/-- Witness of C19: a wire pitch of 0 on a logged-in server comes back as -180. -/
theorem C19_pitch_echo_witness :
    |(0 : ℚ)| < 2 ^ 128 ∧
    ∃ s1, processIncomingMessage exampleEnv
        (IncomingResponse.PlayerPositionAndLook 1 2 3 5 (Binary32.finite 0) (Binary32.finite 0)
          true) exampleReadyServer
        = Outcome.ok s1 ∧
      s1.player_position.pitch
        = Binary32.finite
            (F32.sub (euclideanMod (F32.add (degreesToRadians 0) c_pi) c_2pi) c_2pi) ∧
      ∃ rx ry rz rstance ryaw rground, ∃ rpitch : ℚ,
        (sendPosition s1).submitted = s1.submitted ++
          [OutgoingRequest.PlayerPositionAndLookRequest rx ry rz rstance ryaw
            (Binary32.finite rpitch) rground] ∧
        rpitch = radiansToDegrees
          (F32.sub (euclideanMod (F32.add (degreesToRadians 0) c_pi) c_2pi) c_2pi) ∧
        -360 ≤ rpitch ∧ rpitch < 0 ∧
        ((0 : ℚ) = 0 → rpitch = -180) :=
  ⟨by norm_num,
    C19_pitch_echo exampleEnv 1 2 3 5 (Binary32.finite 0) 0 true exampleReadyServer
      (by norm_num)⟩

end Mineflayer
